import Mathlib

/-!
Shallow embedding of the location privacy / proximity-query subsystem of the
LocationServer repository (files `encryption.py`, `routers/location_router.py`,
`models/location_models.py`), together with theorems settling the frozen claims.

Byte strings are modelled as lists of naturals (< 256 where it matters).
-/

/-- Byte strings: `bytes` values from the Python source. -/
abbrev Bytes := List Nat

/-! ### Base64 (`base64.b64encode` / `base64.b64decode` from the standard library) -/

/-- ASCII code of the base64 alphabet character for a sextet (`A-Z a-z 0-9 + /`). -/
def b64chr (s : Nat) : Nat :=
  if s < 26 then 65 + s
  else if s < 52 then 97 + (s - 26)
  else if s < 62 then 48 + (s - 52)
  else if s = 62 then 43
  else 47

/-- Inverse alphabet lookup: sextet of an ASCII code, `none` if not in the alphabet. -/
def b64idx (c : Nat) : Option Nat :=
  if 65 ≤ c ∧ c ≤ 90 then some (c - 65)
  else if 97 ≤ c ∧ c ≤ 122 then some (26 + (c - 97))
  else if 48 ≤ c ∧ c ≤ 57 then some (52 + (c - 48))
  else if c = 43 then some 62
  else if c = 47 then some 63
  else none

/-- Model of `base64.b64encode`: encode bytes three at a time into four alphabet
characters, padding the final group with `=` (ASCII 61). -/
def b64encode : Bytes → Bytes
  | [] => []
  | [b1] => [b64chr (b1 / 4), b64chr (b1 % 4 * 16), 61, 61]
  | [b1, b2] => [b64chr (b1 / 4), b64chr (b1 % 4 * 16 + b2 / 16), b64chr (b2 % 16 * 4), 61]
  | b1 :: b2 :: b3 :: rest =>
      b64chr (b1 / 4) :: b64chr (b1 % 4 * 16 + b2 / 16) ::
      b64chr (b2 % 16 * 4 + b3 / 64) :: b64chr (b3 % 64) :: b64encode rest

/-- Decode filtered base64 text four characters at a time; `=` padding is only
accepted at the end of the input, as `binascii.a2b_base64` enforces. -/
def b64decodeGroups : Bytes → Option Bytes
  | [] => some []
  | c1 :: c2 :: c3 :: c4 :: rest =>
      match b64idx c1, b64idx c2 with
      | some s1, some s2 =>
          if c3 = 61 then
            if c4 = 61 ∧ rest = [] then some [s1 * 4 + s2 / 16] else none
          else
            match b64idx c3 with
            | some s3 =>
                if c4 = 61 then
                  if rest = [] then some [s1 * 4 + s2 / 16, s2 % 16 * 16 + s3 / 4] else none
                else
                  match b64idx c4 with
                  | some s4 =>
                      match b64decodeGroups rest with
                      | some ds => some ((s1 * 4 + s2 / 16) :: (s2 % 16 * 16 + s3 / 4) ::
                          (s3 % 4 * 64 + s4) :: ds)
                      | none => none
                  | none => none
            | none => none
      | _, _ => none
  | _ => none

/-- Model of `base64.b64decode` (default `validate=False`): characters outside the
alphabet and the padding character are discarded before decoding. -/
def b64decode (token : Bytes) : Option Bytes :=
  b64decodeGroups (token.filter (fun c => (b64idx c).isSome || c = 61))

theorem b64chr_table : ∀ s < 64, b64idx (b64chr s) = some s ∧ b64chr s ≠ 61 := by decide

theorem b64idx_b64chr {s : Nat} (h : s < 64) : b64idx (b64chr s) = some s :=
  (b64chr_table s h).1

theorem b64chr_ne_pad {s : Nat} (h : s < 64) : b64chr s ≠ 61 :=
  (b64chr_table s h).2

theorem b64chr_keep {s : Nat} (h : s < 64) :
    ((b64idx (b64chr s)).isSome || b64chr s = 61) = true := by
  rw [b64idx_b64chr h]
  simp

theorem sextet1_lt {b1 : Nat} (h : b1 < 256) : b1 / 4 < 64 := by omega

theorem sextet2_lt {b1 b2 : Nat} (h1 : b1 < 256) (h2 : b2 < 256) :
    b1 % 4 * 16 + b2 / 16 < 64 := by omega

theorem sextet3_lt {b2 b3 : Nat} (h2 : b2 < 256) (h3 : b3 < 256) :
    b2 % 16 * 4 + b3 / 64 < 64 := by omega

theorem sextet4_lt {b3 : Nat} (h3 : b3 < 256) : b3 % 64 < 64 := by omega

/-- Every character produced by `b64encode` survives the alphabet filter. -/
theorem b64encode_filter (bs : Bytes) (hb : ∀ b ∈ bs, b < 256) :
    (b64encode bs).filter (fun c => (b64idx c).isSome || c = 61) = b64encode bs := by
  apply List.filter_eq_self.mpr
  intro c hc
  induction bs using b64encode.induct with
  | case1 => simp [b64encode] at hc
  | case2 b1 =>
      have h1 : b1 < 256 := hb b1 (by simp)
      simp only [b64encode, List.mem_cons, List.not_mem_nil, or_false] at hc
      rcases hc with h | h | h | h <;> subst h
      · exact b64chr_keep (sextet1_lt h1)
      · exact b64chr_keep (show b1 % 4 * 16 < 64 by omega)
      · decide
      · decide
  | case3 b1 b2 =>
      have h1 : b1 < 256 := hb b1 (by simp)
      have h2 : b2 < 256 := hb b2 (by simp)
      simp only [b64encode, List.mem_cons, List.not_mem_nil, or_false] at hc
      rcases hc with h | h | h | h <;> subst h
      · exact b64chr_keep (sextet1_lt h1)
      · exact b64chr_keep (sextet2_lt h1 h2)
      · exact b64chr_keep (show b2 % 16 * 4 < 64 by omega)
      · decide
  | case4 b1 b2 b3 rest ih =>
      have h1 : b1 < 256 := hb b1 (by simp)
      have h2 : b2 < 256 := hb b2 (by simp)
      have h3 : b3 < 256 := hb b3 (by simp)
      simp only [b64encode, List.mem_cons] at hc
      rcases hc with h | h | h | h | h
      · subst h; exact b64chr_keep (sextet1_lt h1)
      · subst h; exact b64chr_keep (sextet2_lt h1 h2)
      · subst h; exact b64chr_keep (sextet3_lt h2 h3)
      · subst h; exact b64chr_keep (sextet4_lt h3)
      · exact ih (fun b hbm => hb b (by simp [hbm])) h

theorem div_mul_add {c : Nat} (x y : Nat) (hc : 0 < c) (hy : y < c) : (x * c + y) / c = x := by
  rw [Nat.mul_comm, Nat.mul_add_div hc, Nat.div_eq_of_lt hy, Nat.add_zero]

theorem mod_mul_add {c : Nat} (x y : Nat) (hy : y < c) : (x * c + y) % c = y := by
  rw [Nat.mul_comm, Nat.mul_add_mod, Nat.mod_eq_of_lt hy]

/-- Decoding groups of an encoded string recovers the original bytes. -/
theorem b64decodeGroups_b64encode (bs : Bytes) (hb : ∀ b ∈ bs, b < 256) :
    b64decodeGroups (b64encode bs) = some bs := by
  induction bs using b64encode.induct with
  | case1 => rfl
  | case2 b1 =>
      have h1 : b1 < 256 := hb b1 (by simp)
      show b64decodeGroups [b64chr (b1 / 4), b64chr (b1 % 4 * 16), 61, 61] = some [b1]
      simp only [b64decodeGroups, b64idx_b64chr (sextet1_lt h1),
        b64idx_b64chr (show b1 % 4 * 16 < 64 by omega)]
      norm_num
      omega
  | case3 b1 b2 =>
      have h1 : b1 < 256 := hb b1 (by simp)
      have h2 : b2 < 256 := hb b2 (by simp)
      have hne3 : b64chr (b2 % 16 * 4) ≠ 61 := b64chr_ne_pad (by omega)
      show b64decodeGroups
          [b64chr (b1 / 4), b64chr (b1 % 4 * 16 + b2 / 16), b64chr (b2 % 16 * 4), 61]
          = some [b1, b2]
      simp only [b64decodeGroups, b64idx_b64chr (sextet1_lt h1),
        b64idx_b64chr (sextet2_lt h1 h2), hne3,
        b64idx_b64chr (show b2 % 16 * 4 < 64 by omega)]
      norm_num
      constructor <;> omega
  | case4 b1 b2 b3 rest ih =>
      have h1 : b1 < 256 := hb b1 (by simp)
      have h2 : b2 < 256 := hb b2 (by simp)
      have h3 : b3 < 256 := hb b3 (by simp)
      have hrest := ih (fun b hbm => hb b (by simp [hbm]))
      have hne3 : b64chr (b2 % 16 * 4 + b3 / 64) ≠ 61 := b64chr_ne_pad (sextet3_lt h2 h3)
      have hne4 : b64chr (b3 % 64) ≠ 61 := b64chr_ne_pad (sextet4_lt h3)
      show b64decodeGroups (b64chr (b1 / 4) :: b64chr (b1 % 4 * 16 + b2 / 16) ::
          b64chr (b2 % 16 * 4 + b3 / 64) :: b64chr (b3 % 64) :: b64encode rest)
          = some (b1 :: b2 :: b3 :: rest)
      simp only [b64decodeGroups, b64idx_b64chr (sextet1_lt h1),
        b64idx_b64chr (sextet2_lt h1 h2), hne3, hne4,
        b64idx_b64chr (sextet3_lt h2 h3), b64idx_b64chr (sextet4_lt h3), hrest]
      rw [div_mul_add (b1 % 4) (b2 / 16) (by norm_num) (by omega),
        mod_mul_add (b1 % 4) (b2 / 16) (by omega),
        div_mul_add (b2 % 16) (b3 / 64) (by norm_num) (by omega),
        mod_mul_add (b2 % 16) (b3 / 64) (by omega)]
      norm_num
      omega

/-- Base64 round trip on genuine byte strings. -/
theorem b64decode_b64encode (bs : Bytes) (hb : ∀ b ∈ bs, b < 256) :
    b64decode (b64encode bs) = some bs := by
  rw [b64decode, b64encode_filter bs hb, b64decodeGroups_b64encode bs hb]

/-- Base64 round trip on genuine byte strings. -/
theorem b64decode_b64encode_lt (bs : Bytes) (hb : ∀ b ∈ bs, b < 256) :
    b64decode (b64encode bs) = some bs := by
  rw [b64decode, b64encode_filter bs hb, b64decodeGroups_b64encode bs hb]

/-! ### JSON payload (`json.dumps({"lat": latitude, "lon": longitude})` / `json.loads`) -/

/-- True for the ASCII codes that can occur inside a JSON number
(digits, signs, decimal point, exponent marks). -/
def isNumByte (c : Nat) : Bool :=
  (48 ≤ c && c ≤ 57) || c = 45 || c = 43 || c = 46 || c = 69 || c = 101

/-- JSON number codec: Python's float formatting inside `json.dumps` and the
float parsing inside `json.loads`, abstracted over the number type `F`.
CPython guarantees `float(repr(x)) == x` for every finite float, which is the
`parse_print` field; the serialized text consists of number characters only. -/
structure NumCodec (F : Type) where
  print : F → Bytes
  parse : Bytes → Option F
  print_num : ∀ x, ∀ b ∈ print x, isNumByte b = true
  print_lt : ∀ x, ∀ b ∈ print x, b < 256
  parse_print : ∀ x, parse (print x) = some x

/-- ASCII bytes of the serialized text before the latitude value. -/
def jsonHeadLat : Bytes := [123, 34, 108, 97, 116, 34, 58, 32]

/-- ASCII bytes of the separator between the latitude and longitude values. -/
def jsonHeadLon : Bytes := [44, 32, 34, 108, 111, 110, 34, 58, 32]

/-- Serialized form of `{"lat": lat, "lon": lon}` as produced by `json.dumps`. -/
def jsonDumps {F : Type} (C : NumCodec F) (lat lon : F) : Bytes :=
  jsonHeadLat ++ C.print lat ++ jsonHeadLon ++ C.print lon ++ [125]

/-- Consume an expected literal from the head of the input, or fail. -/
def dropLit : Bytes → Bytes → Option Bytes
  | [], rest => some rest
  | p :: ps, c :: cs => if c = p then dropLit ps cs else none
  | _ :: _, [] => none

/-- Behaviour of `json.loads` followed by the `location["lat"]`,
`location["lon"]` lookups on payloads of the serialized shape: any byte string
not of that shape fails (`json.loads` raises or a key is missing). -/
def jsonLoads {F : Type} (C : NumCodec F) (data : Bytes) : Option (F × F) :=
  match dropLit jsonHeadLat data with
  | none => none
  | some r1 =>
      match C.parse (r1.takeWhile isNumByte), dropLit jsonHeadLon (r1.dropWhile isNumByte) with
      | some lat, some r2 =>
          match C.parse (r2.takeWhile isNumByte), r2.dropWhile isNumByte with
          | some lon, [125] => some (lat, lon)
          | _, _ => none
      | _, _ => none

theorem dropLit_append (ps rest : Bytes) : dropLit ps (ps ++ rest) = some rest := by
  induction ps with
  | nil => rfl
  | cons p ps ih => simp [dropLit, ih]

theorem takeWhile_split {p : Nat → Bool} (xs : Bytes) (c : Nat) (cs : Bytes)
    (hxs : ∀ x ∈ xs, p x = true) (hc : p c = false) :
    (xs ++ c :: cs).takeWhile p = xs ∧ (xs ++ c :: cs).dropWhile p = c :: cs := by
  induction xs with
  | nil => simp [List.takeWhile, List.dropWhile, hc]
  | cons x xs ih =>
      have hx : p x = true := hxs x (by simp)
      have ih2 := ih (fun y hy => hxs y (by simp [hy]))
      simp [List.takeWhile, List.dropWhile, hx, ih2.1, ih2.2]

/-- Parsing the serialized dict recovers both coordinates. -/
theorem jsonLoads_jsonDumps {F : Type} (C : NumCodec F) (lat lon : F) :
    jsonLoads C (jsonDumps C lat lon) = some (lat, lon) := by
  have hsplit1 := takeWhile_split (p := isNumByte) (C.print lat) 44
    ([32, 34, 108, 111, 110, 34, 58, 32] ++ (C.print lon ++ [125]))
    (C.print_num lat) (by decide)
  have hsplit2 := takeWhile_split (p := isNumByte) (C.print lon) 125 []
    (C.print_num lon) (by decide)
  have harr : jsonDumps C lat lon = jsonHeadLat ++
      (C.print lat ++ (44 :: ([32, 34, 108, 111, 110, 34, 58, 32] ++ (C.print lon ++ [125])))) := by
    simp [jsonDumps, jsonHeadLon]
  have hdl2 : dropLit jsonHeadLon
      (44 :: ([32, 34, 108, 111, 110, 34, 58, 32] ++ (C.print lon ++ [125])))
      = some (C.print lon ++ [125]) :=
    dropLit_append jsonHeadLon (C.print lon ++ [125])
  have h125 : C.print lon ++ [125] = C.print lon ++ 125 :: [] := rfl
  rw [jsonLoads, harr, dropLit_append]
  simp only [hsplit1.1, hsplit1.2, C.parse_print, hdl2, h125, hsplit2.1, hsplit2.2]

/-- Bytes of the serialized dict are genuine bytes. -/
theorem jsonDumps_lt {F : Type} (C : NumCodec F) (lat lon : F) :
    ∀ b ∈ jsonDumps C lat lon, b < 256 := by
  have hH : ∀ b ∈ jsonHeadLat, b < 256 := by decide
  have hL : ∀ b ∈ jsonHeadLon, b < 256 := by decide
  intro b hb
  simp only [jsonDumps, List.mem_append, List.mem_singleton] at hb
  rcases hb with (((h | h) | h) | h) | h
  · exact hH b h
  · exact C.print_lt lat b h
  · exact hL b h
  · exact C.print_lt lon b h
  · exact h ▸ (by norm_num)

/-! ### AES-GCM cipher model -/

/-- XOR a byte string with the cipher keystream starting at stream position
`i`; CTR-mode encryption and decryption of AES-GCM are both this operation. -/
def xorStream (ks : Nat → Nat) : Nat → Bytes → Bytes
  | _, [] => []
  | i, b :: rest => (b ^^^ ks i) :: xorStream ks (i + 1) rest

theorem xorStream_xorStream (ks : Nat → Nat) (i : Nat) (bs : Bytes) :
    xorStream ks i (xorStream ks i bs) = bs := by
  induction bs generalizing i with
  | nil => rfl
  | cons b rest ih => simp [xorStream, Nat.xor_assoc, ih]

theorem xorStream_lt (ks : Nat → Nat) (hks : ∀ i, ks i < 256) (i : Nat) (bs : Bytes)
    (hb : ∀ b ∈ bs, b < 256) : ∀ b ∈ xorStream ks i bs, b < 256 := by
  induction bs generalizing i with
  | nil => intro b h; simp [xorStream] at h
  | cons b rest ih =>
      intro x hx
      simp only [xorStream, List.mem_cons] at hx
      rcases hx with h | h
      · subst h
        have h1 : b < 2 ^ 8 := by norm_num [hb b (by simp)]
        have h2 : ks i < 2 ^ 8 := by norm_num [hks i]
        have := Nat.xor_lt_two_pow h1 h2
        norm_num at this
        exact this
      · exact ih (i + 1) (fun y hy => hb y (by simp [hy])) x h

/-- Abstract model of the AES-GCM primitives used by `encryption.py`.  The key
is derived once at process start (`AES_KEY = derive_encryption_key()`), so the
keystream is a function of the nonce (iv) and the authentication tag a
function of the iv and the ciphertext; the fields record the shape facts the
cryptography library guarantees (bytes are bytes, tags are 16 bytes long). -/
structure GCMModel where
  keystream : Bytes → Nat → Nat
  tagOf : Bytes → Bytes → Bytes
  keystream_lt : ∀ iv i, keystream iv i < 256
  tagOf_length : ∀ iv ct, (tagOf iv ct).length = 16
  tagOf_lt : ∀ iv ct, ∀ b ∈ tagOf iv ct, b < 256

/-- FastAPI `HTTPException` payload: status code and detail message. -/
structure HTTPError where
  status_code : Nat
  detail : String
deriving DecidableEq

/-- Embedding of `encrypt_location` from `encryption.py`: serialize the coordinate pair as
JSON, AES-GCM encrypt it under the fresh random nonce `iv` (a 12-byte value of
`os.urandom`), and return `base64.b64encode(iv + tag + ciphertext)`. -/
def encrypt_location {F : Type} (M : GCMModel) (C : NumCodec F) (iv : Bytes) (lat lon : F) :
    Bytes :=
  let data := jsonDumps C lat lon
  let ciphertext := xorStream (M.keystream iv) 0 data
  b64encode (iv ++ M.tagOf iv ciphertext ++ ciphertext)

/-- Embedding of `decrypt_location` from `encryption.py`: base64-decode the token, split it
as `raw[:12], raw[12:28], raw[28:]`, rebuild the GCM context (which checks the
iv and tag lengths), verify the authentication tag, decrypt, and parse the
JSON payload; every failure becomes `HTTPException(500, "Decryption failed")`
through the catch-all `except` clause. -/
def decrypt_location {F : Type} (M : GCMModel) (C : NumCodec F) (token : Bytes) :
    Except HTTPError (F × F) :=
  match b64decode token with
  | none => .error ⟨500, "Decryption failed"⟩
  | some raw =>
      let iv := raw.take 12
      let tag := (raw.drop 12).take 16
      let ciphertext := raw.drop 28
      if iv.length < 8 ∨ tag.length < 16 then .error ⟨500, "Decryption failed"⟩
      else if M.tagOf iv ciphertext ≠ tag then .error ⟨500, "Decryption failed"⟩
      else
        match jsonLoads C (xorStream (M.keystream iv) 0 ciphertext) with
        | none => .error ⟨500, "Decryption failed"⟩
        | some (lat, lon) => .ok (lat, lon)

theorem xorStream_length (ks : Nat → Nat) (i : Nat) (bs : Bytes) :
    (xorStream ks i bs).length = bs.length := by
  induction bs generalizing i with
  | nil => rfl
  | cons b rest ih => simp [xorStream, ih]

/-- Splitting `raw[:12]`, `raw[12:28]`, `raw[28:]` on `iv ‖ tag ‖ ct` recovers
the three components when the iv is 12 bytes and the tag 16. -/
theorem split_iv_tag_ct (iv tg ct : Bytes) (hiv : iv.length = 12) (htg : tg.length = 16) :
    (iv ++ tg ++ ct).take 12 = iv ∧ ((iv ++ tg ++ ct).drop 12).take 16 = tg ∧
    (iv ++ tg ++ ct).drop 28 = ct := by
  have hassoc : iv ++ tg ++ ct = iv ++ (tg ++ ct) := List.append_assoc iv tg ct
  have hdrop12 : (iv ++ tg ++ ct).drop 12 = tg ++ ct := by
    rw [hassoc]; exact List.drop_left' hiv
  refine ⟨?_, ?_, ?_⟩
  · rw [hassoc]; exact List.take_left' hiv
  · rw [hdrop12]; exact List.take_left' htg
  · have h : (iv ++ tg ++ ct).drop 28 = ((iv ++ tg ++ ct).drop 12).drop 16 := by
      rw [List.drop_drop]
    rw [h, hdrop12]; exact List.drop_left' htg

/-- Decryption inverts encryption, for every nonce the cipher may draw and
every coordinate pair: the round-trip property of the coordinate cipher. -/
theorem decrypt_encrypt {F : Type} (M : GCMModel) (C : NumCodec F)
    (iv : Bytes) (hlen : iv.length = 12) (hiv : ∀ b ∈ iv, b < 256) (lat lon : F) :
    decrypt_location M C (encrypt_location M C iv lat lon) = .ok (lat, lon) := by
  have hct : ∀ b ∈ xorStream (M.keystream iv) 0 (jsonDumps C lat lon), b < 256 :=
    xorStream_lt _ (M.keystream_lt iv) 0 _ (jsonDumps_lt C lat lon)
  set data := jsonDumps C lat lon with hdataeq
  set ct := xorStream (M.keystream iv) 0 data with hcteq
  set tg := M.tagOf iv ct with htgeq
  have htg_len : tg.length = 16 := M.tagOf_length iv ct
  have hraw : ∀ b ∈ iv ++ tg ++ ct, b < 256 := by
    intro b hb
    rcases List.mem_append.mp hb with h | h
    · rcases List.mem_append.mp h with h2 | h2
      · exact hiv b h2
      · exact M.tagOf_lt iv ct b h2
    · exact hct b h
  have hb64 : b64decode (b64encode (iv ++ tg ++ ct)) = some (iv ++ tg ++ ct) :=
    b64decode_b64encode_lt _ hraw
  obtain ⟨h1, h2, h3⟩ := split_iv_tag_ct iv tg ct hlen htg_len
  have henc : encrypt_location M C iv lat lon = b64encode (iv ++ tg ++ ct) := rfl
  rw [decrypt_location, henc]
  simp only [hb64, h1, h2, h3, hlen]
  rw [if_neg (by omega : ¬ (12 < 8 ∨ tg.length < 16)), if_neg (by simp [htgeq])]
  rw [hcteq, xorStream_xorStream, hdataeq, jsonLoads_jsonDumps]

/-! ### Concrete instances used to evaluate the model at specific inputs -/

def natPrintAux : Nat → Nat → Bytes
  | 0, _ => []
  | fuel + 1, n =>
      if n = 0 then [] else natPrintAux fuel (n / 10) ++ [n % 10 + 48]

/-- Decimal digits of a natural number, most significant first. -/
def natPrint (n : Nat) : Bytes := natPrintAux n n

def natParseRev : Bytes → Nat
  | [] => 0
  | c :: rest => (c - 48) + 10 * natParseRev rest

/-- Value of a big-endian decimal digit string. -/
def natParse (bs : Bytes) : Nat := natParseRev bs.reverse

theorem natPrintAux_digits : ∀ fuel n, ∀ b ∈ natPrintAux fuel n, 48 ≤ b ∧ b ≤ 57 := by
  intro fuel
  induction fuel with
  | zero => intro n b hb; simp [natPrintAux] at hb
  | succ fuel ih =>
      intro n b hb
      rw [natPrintAux] at hb
      by_cases h0 : n = 0
      · rw [if_pos h0] at hb; simp at hb
      · rw [if_neg h0] at hb
        rcases List.mem_append.mp hb with h | h
        · exact ih _ b h
        · have : b = n % 10 + 48 := List.mem_singleton.mp h
          omega

theorem natParse_natPrintAux : ∀ fuel n, n ≤ fuel → natParse (natPrintAux fuel n) = n := by
  intro fuel
  induction fuel with
  | zero => intro n hn; interval_cases n; rfl
  | succ fuel ih =>
      intro n hn
      by_cases h0 : n = 0
      · subst h0; rfl
      · have hdiv := ih (n / 10) (by omega)
        rw [natParse] at hdiv ⊢
        rw [natPrintAux, if_neg h0, List.reverse_append, List.reverse_singleton,
          List.singleton_append, natParseRev, hdiv]
        omega

theorem natParse_natPrint (n : Nat) : natParse (natPrint n) = n :=
  natParse_natPrintAux n n (Nat.le_refl n)

theorem natPrint_ne_nil {n : Nat} (h : 0 < n) : natPrint n ≠ [] := by
  match n, h with
  | m + 1, _ =>
      rw [natPrint, natPrintAux, if_neg (Nat.succ_ne_zero m)]
      exact fun hc => (List.append_ne_nil_of_right_ne_nil _ (by simp)) hc

/-- Decimal form of an integer: CPython number formatting specialised to
integral values, used to instantiate the abstract codec. -/
def intPrint : Int → Bytes
  | .ofNat n => if n = 0 then [48] else natPrint n
  | .negSucc m => 45 :: natPrint (m + 1)

/-- Parse of a decimal integer with optional leading minus sign. -/
def intParse (bs : Bytes) : Option Int :=
  match bs with
  | [] => none
  | c :: rest =>
      if c = 45 then
        if rest.isEmpty then none else some (-(natParse rest : Int))
      else some ((natParse bs : Int))

theorem intParse_intPrint (x : Int) : intParse (intPrint x) = some x := by
  match x with
  | .ofNat n =>
      match n, (by omega : n = 0 ∨ 0 < n) with
      | _, .inl rfl => rfl
      | n, .inr hpos =>
          rw [intPrint]
          rw [if_neg (by omega)]
          cases hp : natPrint n with
          | nil => exact absurd hp (natPrint_ne_nil hpos)
          | cons c rest =>
              have hc : 48 ≤ c ∧ c ≤ 57 :=
                natPrintAux_digits n n c (by rw [← natPrint, hp]; simp)
              rw [intParse, if_neg (by omega)]
              have := natParse_natPrint n
              rw [hp] at this
              rw [this]
              rfl
  | .negSucc m =>
      rw [intPrint, intParse]
      rw [if_pos rfl]
      have hne : (natPrint (m + 1)).isEmpty = false := by
        cases hp : natPrint (m + 1) with
        | nil => exact absurd hp (natPrint_ne_nil (by omega))
        | cons c rest => rfl
      rw [hne]
      simp only [Bool.false_eq_true, if_false, natParse_natPrint]
      congr 1

/-- The concrete codec over ℤ used for witnesses. -/
def intCodec : NumCodec Int where
  print := intPrint
  parse := intParse
  print_num := by
    intro x b hb
    match x with
    | .ofNat n =>
        rw [intPrint] at hb
        by_cases h0 : n = 0
        · rw [if_pos h0] at hb
          have : b = 48 := List.mem_singleton.mp hb
          subst this; decide
        · rw [if_neg h0] at hb
          have := natPrintAux_digits n n b hb
          simp [isNumByte]
          omega
    | .negSucc m =>
        rw [intPrint] at hb
        rcases List.mem_cons.mp hb with h | h
        · subst h; decide
        · have := natPrintAux_digits (m + 1) (m + 1) b h
          simp [isNumByte]
          omega
  print_lt := by
    intro x b hb
    match x with
    | .ofNat n =>
        rw [intPrint] at hb
        by_cases h0 : n = 0
        · rw [if_pos h0] at hb
          have : b = 48 := List.mem_singleton.mp hb
          omega
        · rw [if_neg h0] at hb
          have := natPrintAux_digits n n b hb
          omega
    | .negSucc m =>
        rw [intPrint] at hb
        rcases List.mem_cons.mp hb with h | h
        · omega
        · have := natPrintAux_digits (m + 1) (m + 1) b h
          omega
  parse_print := intParse_intPrint

/-- A trivial admissible instance of the GCM primitives, used to evaluate the
model at concrete inputs. -/
def gcmZero : GCMModel where
  keystream := fun _ _ => 0
  tagOf := fun _ _ => List.replicate 16 0
  keystream_lt := fun _ _ => by norm_num
  tagOf_length := fun _ _ => List.length_replicate 16 0
  tagOf_lt := fun _ _ b hb => by
    rw [List.eq_of_mem_replicate hb]; norm_num

/-- A fixed 12-byte nonce for concrete evaluations. -/
def ivZ : Bytes := List.replicate 12 0


/-! ### Router embedding (`routers/location_router.py`) -/

/-- A row of the `user_locations` table.  `age_hours` is `NOW() - timestamp`
in hours, so the SQL condition `timestamp > NOW() - INTERVAL '48 hours'`
becomes `age_hours < 48` and the 7-day interval becomes `age_hours < 168`. -/
structure LocationRow where
  user_id : String
  encrypted_data : Bytes
  visibility : String
  age_hours : ℚ
deriving DecidableEq

/-- The `UserLocation` request model: pydantic constrains the coordinates only to
be floats (no range bound) and the visibility to the enum values. -/
structure UserLocation (F : Type) where
  user_id : String
  latitude : F
  longitude : F
  visibility : String

/-- The `NearestUsersRequest` model. -/
structure NearestUsersRequest where
  user_id : String
  limit : Int
  max_distance_km : Option ℚ

/-- The `NearestByCoordinatesRequest` model. -/
structure NearestByCoordinatesRequest (F : Type) where
  latitude : F
  longitude : F
  limit : Int
  max_distance_km : Option ℚ

/-- One element of the `nearest_users` response list. -/
structure NearestEntry where
  user_id : String
  distance_km : ℚ
  visibility : String
deriving DecidableEq

/-- Response data of `/nearby_by_coordinates` (its `user_id` field is the
constant `None` in the source). -/
structure CoordsData where
  user_id : Option String
  nearest_users : List NearestEntry
  total_found : Nat
deriving DecidableEq

/-- Response data of `/nearby`, including the recency window used. -/
structure NearbyData where
  user_id : String
  nearest_users : List NearestEntry
  total_found : Nat
  time_window : String
deriving DecidableEq

/-- Environment of the router handlers: the cipher primitives and codec, plus
`geopy.distance.geodesic(p, q).kilometers` and `round(-, 2)` as abstract
functions. -/
structure RouterCtx (F : Type) where
  M : GCMModel
  C : NumCodec F
  geodesic : F × F → F × F → ℚ
  round2 : ℚ → ℚ

/-- Model of `if req.max_distance_km and distance > req.max_distance_km:` — Python
truthiness makes both `None` and `0.0` disable the filter. -/
def maxDistActive (m : Option ℚ) (d : ℚ) : Bool :=
  match m with
  | none => false
  | some v => v ≠ 0 && d > v

/-- Body of the per-candidate loop: decrypt, compute and filter the distance,
build the entry; `none` when the candidate is dropped (decryption failure in
the coords variant's `try/except`, or the distance filter). -/
def rowEntry? {F : Type} (ctx : RouterCtx F) (refpt : F × F) (maxd : Option ℚ)
    (r : LocationRow) : Option NearestEntry :=
  match decrypt_location ctx.M ctx.C r.encrypted_data with
  | .error _ => none
  | .ok (lat, lon) =>
      let distance := ctx.geodesic refpt (lat, lon)
      if maxDistActive maxd distance then none
      else some ⟨r.user_id, ctx.round2 distance, r.visibility⟩

/-- Key comparison of `nearest_users.sort(key=lambda x: x["distance_km"])`. -/
def entryLE (a b : NearestEntry) : Prop := a.distance_km ≤ b.distance_km

instance : DecidableRel entryLE := fun a b => inferInstanceAs (Decidable (a.distance_km ≤ b.distance_km))

instance : IsTotal NearestEntry entryLE := ⟨fun a b => le_total a.distance_km b.distance_km⟩

instance : IsTrans NearestEntry entryLE := ⟨fun _ _ _ => le_trans⟩

/-- Python's `list.sort` is a stable sort; a stable sort by a total preorder
has a unique result, so insertion sort models it exactly. -/
def sortByDistance (l : List NearestEntry) : List NearestEntry :=
  List.insertionSort entryLE l

/-- Embedding of `POST /nearby_by_coordinates` (`find_nearest_users_by_coords`): validate
the limit, fetch non-private rows of the last 48 hours (no wider window),
decrypt-and-filter each with `try/except`-skip, sort, truncate. -/
def find_nearest_users_by_coords {F : Type} (ctx : RouterCtx F) (db : List LocationRow)
    (req : NearestByCoordinatesRequest F) : Except HTTPError CoordsData :=
  if req.limit < 1 ∨ 100 < req.limit then
    .error ⟨400, "Limit must be between 1 and 100"⟩
  else
    let other_locations := db.filter (fun r => r.visibility ≠ "private" ∧ r.age_hours < 48)
    let nearest_users := other_locations.filterMap
      (rowEntry? ctx (req.latitude, req.longitude) req.max_distance_km)
    let sorted := sortByDistance nearest_users
    .ok ⟨none, sorted.take req.limit.toNat, sorted.length⟩

/-- Model of `db.fetchrow` for the self lookup: first matching row of
`user_id = $1 AND timestamp > NOW() - INTERVAL w` (no visibility filter). -/
def fetchSelf (db : List LocationRow) (uid : String) (window : ℚ) : Option LocationRow :=
  (db.filter (fun r => r.user_id = uid ∧ r.age_hours < window)).head?

/-- Model of `db.fetch` of candidate rows: everyone but the reference user, not
private, within the window. -/
def fetchOthers (db : List LocationRow) (uid : String) (window : ℚ) : List LocationRow :=
  db.filter (fun r => r.user_id ≠ uid ∧ r.visibility ≠ "private" ∧ r.age_hours < window)

/-- Per-candidate loop of `find_nearest_users`: identical loop body to the
coords variant, but with no `try/except` — the first decryption failure
propagates and aborts the whole request. -/
def collectNearest {F : Type} (ctx : RouterCtx F) (refpt : F × F) (maxd : Option ℚ) :
    List LocationRow → Except HTTPError (List NearestEntry)
  | [] => .ok []
  | loc :: rest =>
      match decrypt_location ctx.M ctx.C loc.encrypted_data with
      | .error e => .error e
      | .ok (lat, lon) =>
          let distance := ctx.geodesic refpt (lat, lon)
          match collectNearest ctx refpt maxd rest with
          | .error e => .error e
          | .ok tail =>
              if maxDistActive maxd distance then .ok tail
              else .ok (⟨loc.user_id, ctx.round2 distance, loc.visibility⟩ :: tail)

/-- Embedding of `POST /nearby` (`find_nearest_users`): validate the limit; resolve the
requesting user's own row at 48 hours, then at 7 days, else 404; fetch
candidates at 48 hours, widening to 7 days only if that set is empty (the
reported `time_window` is not updated by this widening); decrypt the self row
and every candidate (no per-candidate exception handling); filter, sort,
truncate. -/
def find_nearest_users {F : Type} (ctx : RouterCtx F) (db : List LocationRow)
    (req : NearestUsersRequest) : Except HTTPError NearbyData :=
  if req.limit < 1 ∨ 100 < req.limit then
    .error ⟨400, "Limit must be between 1 and 100"⟩
  else
    let step :=
      match fetchSelf db req.user_id 48 with
      | some r => some (r, "48 hours")
      | none =>
          match fetchSelf db req.user_id 168 with
          | some r => some (r, "7 days")
          | none => none
    match step with
    | none => .error ⟨404, "User location not found or is older than 7 days"⟩
    | some (selfRow, time_window) =>
        let other48 := fetchOthers db req.user_id 48
        let other_locations :=
          if other48.isEmpty then fetchOthers db req.user_id 168 else other48
        match decrypt_location ctx.M ctx.C selfRow.encrypted_data with
        | .error e => .error e
        | .ok userPt =>
            match collectNearest ctx userPt req.max_distance_km other_locations with
            | .error e => .error e
            | .ok nearest_users =>
                let sorted := sortByDistance nearest_users
                .ok ⟨req.user_id, sorted.take req.limit.toNat, sorted.length, time_window⟩

/-- The SQL upsert `INSERT ... ON CONFLICT (user_id) DO UPDATE`: replace the
existing row of the user or append a new one; `CURRENT_TIMESTAMP` makes the
stored row age 0. -/
def upsert (db : List LocationRow) (uid : String) (blob : Bytes) (vis : String) :
    List LocationRow :=
  if db.any (fun r => r.user_id = uid) then
    db.map (fun r => if r.user_id = uid then ⟨uid, blob, vis, 0⟩ else r)
  else
    db ++ [⟨uid, blob, vis, 0⟩]

/-- Response of `/update_location`. -/
structure UpdateResponse where
  status : String
  message : String
deriving DecidableEq

/-- Embedding of `POST /update_location` (`update_location`): encrypt the request's
coordinates — no coordinate-range validation exists on this path — and
upsert the blob with the request's visibility. -/
def update_location {F : Type} (ctx : RouterCtx F) (iv : Bytes) (db : List LocationRow)
    (location : UserLocation F) : List LocationRow × UpdateResponse :=
  let encrypted_data := encrypt_location ctx.M ctx.C iv location.latitude location.longitude
  (upsert db location.user_id encrypted_data location.visibility,
   ⟨"success", "Location updated"⟩)

/-- Concrete router context: trivial cipher primitives, a geodesic that
reports 0 km everywhere, identity rounding. -/
def ctxZ : RouterCtx Int := ⟨gcmZero, intCodec, fun _ _ => 0, id⟩

/-- Concrete router context whose geodesic reports 5 km everywhere. -/
def ctx5 : RouterCtx Int := ⟨gcmZero, intCodec, fun _ _ => 5, id⟩

/-! ### Helper lemmas about the router definitions -/

theorem sortByDistance_perm (l : List NearestEntry) : (sortByDistance l).Perm l :=
  List.perm_insertionSort entryLE l

theorem mem_sortByDistance {e : NearestEntry} {l : List NearestEntry} :
    e ∈ sortByDistance l ↔ e ∈ l :=
  (sortByDistance_perm l).mem_iff

theorem sortByDistance_length (l : List NearestEntry) :
    (sortByDistance l).length = l.length :=
  (sortByDistance_perm l).length_eq

theorem sortByDistance_sorted (l : List NearestEntry) :
    List.Sorted entryLE (sortByDistance l) :=
  List.sorted_insertionSort entryLE l

/-- When every row of the list decrypts, the reference-variant loop succeeds
and computes exactly the coords-variant `filterMap`. -/
theorem collectNearest_ok {F : Type} (ctx : RouterCtx F) (refpt : F × F) (maxd : Option ℚ)
    (l : List LocationRow)
    (h : ∀ r ∈ l, ∃ p, decrypt_location ctx.M ctx.C r.encrypted_data = .ok p) :
    collectNearest ctx refpt maxd l = .ok (l.filterMap (rowEntry? ctx refpt maxd)) := by
  induction l with
  | nil => rfl
  | cons loc rest ih =>
      obtain ⟨⟨lat, lon⟩, hp⟩ := h loc (by simp)
      have ihr := ih (fun r hr => h r (by simp [hr]))
      rw [collectNearest, hp, ihr, List.filterMap_cons]
      rw [rowEntry?, hp]
      by_cases hd : maxDistActive maxd (ctx.geodesic refpt (lat, lon)) <;> simp [hd]

/-- Inversion for the reference-variant loop: every produced entry comes from
a row of the candidate list, with its user id and visibility copied over. -/
theorem collectNearest_mem {F : Type} (ctx : RouterCtx F) (refpt : F × F) (maxd : Option ℚ)
    (l : List LocationRow) (out : List NearestEntry)
    (h : collectNearest ctx refpt maxd l = .ok out) :
    ∀ e ∈ out, ∃ loc ∈ l, ∃ lat lon,
      decrypt_location ctx.M ctx.C loc.encrypted_data = .ok (lat, lon) ∧
      maxDistActive maxd (ctx.geodesic refpt (lat, lon)) = false ∧
      e = ⟨loc.user_id, ctx.round2 (ctx.geodesic refpt (lat, lon)), loc.visibility⟩ := by
  induction l generalizing out with
  | nil =>
      intro e he
      rw [collectNearest] at h
      injection h with h
      subst h
      simp at he
  | cons loc rest ih =>
      intro e he
      rw [collectNearest] at h
      cases hp : decrypt_location ctx.M ctx.C loc.encrypted_data with
      | error err => simp [hp] at h
      | ok p =>
          obtain ⟨lat, lon⟩ := p
          cases hc : collectNearest ctx refpt maxd rest with
          | error err => simp [hp, hc] at h
          | ok tail =>
              simp only [hp, hc] at h
              by_cases hd : maxDistActive maxd (ctx.geodesic refpt (lat, lon)) = true
              · rw [if_pos hd] at h
                injection h with h
                subst h
                obtain ⟨loc2, hl2, hrest⟩ := ih tail hc e he
                exact ⟨loc2, by simp [hl2], hrest⟩
              · rw [if_neg hd] at h
                injection h with h
                subst h
                rcases List.mem_cons.mp he with hhead | htail
                · refine ⟨loc, by simp, lat, lon, hp, ?_, hhead⟩
                  simp only [Bool.not_eq_true] at hd
                  exact hd
                · obtain ⟨loc2, hl2, hrest⟩ := ih tail hc e htail
                  exact ⟨loc2, by simp [hl2], hrest⟩

theorem fetchSelf_mem {db : List LocationRow} {uid : String} {w : ℚ} {r : LocationRow}
    (h : fetchSelf db uid w = some r) :
    r ∈ db ∧ r.user_id = uid ∧ r.age_hours < w := by
  rw [fetchSelf] at h
  have hmem := List.mem_of_mem_head? h
  have hp := List.of_mem_filter hmem
  simp only [decide_eq_true_eq] at hp
  exact ⟨List.mem_of_mem_filter hmem, hp.1, hp.2⟩

theorem fetchOthers_mem {db : List LocationRow} {uid : String} {w : ℚ} {r : LocationRow}
    (h : r ∈ fetchOthers db uid w) :
    r ∈ db ∧ r.user_id ≠ uid ∧ r.visibility ≠ "private" ∧ r.age_hours < w := by
  rw [fetchOthers] at h
  have hp := List.of_mem_filter h
  simp only [decide_eq_true_eq] at hp
  exact ⟨List.mem_of_mem_filter h, hp.1, hp.2.1, hp.2.2⟩

theorem mem_fetchOthers {db : List LocationRow} {uid : String} {w : ℚ} {r : LocationRow}
    (h1 : r ∈ db) (h2 : r.user_id ≠ uid) (h3 : r.visibility ≠ "private")
    (h4 : r.age_hours < w) : r ∈ fetchOthers db uid w := by
  rw [fetchOthers]
  apply List.mem_filter.mpr
  exact ⟨h1, by simp [h2, h3, h4]⟩

/-- Distinct user ids make rows with equal ids equal. -/
theorem unique_ids_eq {db : List LocationRow}
    (h : db.Pairwise (fun a b => a.user_id ≠ b.user_id)) :
    ∀ a ∈ db, ∀ b ∈ db, a.user_id = b.user_id → a = b := by
  induction db with
  | nil => intro a ha; simp at ha
  | cons x xs ih =>
      have hx := List.pairwise_cons.mp h
      intro a ha b hb heq
      rcases List.mem_cons.mp ha with ha1 | ha1 <;> rcases List.mem_cons.mp hb with hb1 | hb1
      · rw [ha1, hb1]
      · subst ha1; exact absurd heq (hx.1 b hb1)
      · subst hb1; exact absurd heq.symm (hx.1 a ha1)
      · exact ih hx.2 a ha1 b hb1 heq

/-- Success-shape inversion of the reference-variant handler. -/
theorem find_nearest_users_ok_shape {F : Type} (ctx : RouterCtx F) (db : List LocationRow)
    (req : NearestUsersRequest) (resp : NearbyData)
    (h : find_nearest_users ctx db req = .ok resp) :
    ∃ selfRow window pt nearest,
      ((fetchSelf db req.user_id 48 = some selfRow ∧ window = "48 hours") ∨
       (fetchSelf db req.user_id 48 = none ∧ fetchSelf db req.user_id 168 = some selfRow ∧
        window = "7 days")) ∧
      decrypt_location ctx.M ctx.C selfRow.encrypted_data = .ok pt ∧
      collectNearest ctx pt req.max_distance_km
        (if fetchOthers db req.user_id 48 = [] then fetchOthers db req.user_id 168
         else fetchOthers db req.user_id 48) = .ok nearest ∧
      resp = ⟨req.user_id, (sortByDistance nearest).take req.limit.toNat,
              (sortByDistance nearest).length, window⟩ ∧
      ¬(req.limit < 1 ∨ 100 < req.limit) := by
  rw [find_nearest_users] at h
  by_cases hl : req.limit < 1 ∨ 100 < req.limit
  · rw [if_pos hl] at h; exact absurd h (by simp)
  · rw [if_neg hl] at h
    cases h48 : fetchSelf db req.user_id 48 with
    | some selfRow =>
        simp only [h48] at h
        cases hdec : decrypt_location ctx.M ctx.C selfRow.encrypted_data with
        | error e => simp [hdec] at h
        | ok pt =>
            cases hcoll : collectNearest ctx pt req.max_distance_km
                (if fetchOthers db req.user_id 48 = []
                 then fetchOthers db req.user_id 168
                 else fetchOthers db req.user_id 48) with
            | error e => simp [hdec, List.isEmpty_eq_true, hcoll] at h
            | ok nearest =>
                simp only [hdec, List.isEmpty_eq_true, hcoll] at h
                injection h with h
                exact ⟨selfRow, "48 hours", pt, nearest, Or.inl ⟨rfl, rfl⟩, hdec, hcoll,
                  h.symm, hl⟩
    | none =>
        cases h168 : fetchSelf db req.user_id 168 with
        | none => simp [h48, h168] at h
        | some selfRow =>
            simp only [h48, h168] at h
            cases hdec : decrypt_location ctx.M ctx.C selfRow.encrypted_data with
            | error e => simp [hdec] at h
            | ok pt =>
                cases hcoll : collectNearest ctx pt req.max_distance_km
                    (if fetchOthers db req.user_id 48 = []
                     then fetchOthers db req.user_id 168
                     else fetchOthers db req.user_id 48) with
                | error e => simp [hdec, List.isEmpty_eq_true, hcoll] at h
                | ok nearest =>
                    simp only [hdec, List.isEmpty_eq_true, hcoll] at h
                    injection h with h
                    exact ⟨selfRow, "7 days", pt, nearest, Or.inr ⟨rfl, rfl, rfl⟩, hdec,
                      hcoll, h.symm, hl⟩

/-- The unsorted entry list computed by the coords variant. -/
def coordsCandidates {F : Type} (ctx : RouterCtx F) (db : List LocationRow)
    (req : NearestByCoordinatesRequest F) : List NearestEntry :=
  (db.filter (fun r => r.visibility ≠ "private" ∧ r.age_hours < 48)).filterMap
    (rowEntry? ctx (req.latitude, req.longitude) req.max_distance_km)

/-- Closed form of the coords-variant handler. -/
theorem find_nearest_users_by_coords_eq {F : Type} (ctx : RouterCtx F) (db : List LocationRow)
    (req : NearestByCoordinatesRequest F) :
    find_nearest_users_by_coords ctx db req =
      if req.limit < 1 ∨ 100 < req.limit then
        .error ⟨400, "Limit must be between 1 and 100"⟩
      else
        .ok ⟨none, (sortByDistance (coordsCandidates ctx db req)).take req.limit.toNat,
             (sortByDistance (coordsCandidates ctx db req)).length⟩ := rfl

theorem upsert_mem (db : List LocationRow) (uid : String) (blob : Bytes) (vis : String) :
    (⟨uid, blob, vis, 0⟩ : LocationRow) ∈ upsert db uid blob vis := by
  rw [upsert]
  by_cases hany : db.any (fun r => r.user_id = uid)
  · rw [if_pos hany]
    obtain ⟨r, hr, hru⟩ := List.any_eq_true.mp hany
    have hru2 : r.user_id = uid := of_decide_eq_true hru
    refine List.mem_map.mpr ⟨r, hr, ?_⟩
    rw [if_pos hru2]
  · rw [if_neg hany]
    simp

theorem upsert_id_blob (db : List LocationRow) (uid : String) (blob : Bytes) (vis : String) :
    ∀ r ∈ upsert db uid blob vis, r.user_id = uid → r.encrypted_data = blob := by
  rw [upsert]
  by_cases hany : db.any (fun r => r.user_id = uid)
  · rw [if_pos hany]
    intro r hr hu
    obtain ⟨x, hx, hfx⟩ := List.mem_map.mp hr
    by_cases hxu : x.user_id = uid
    · rw [if_pos hxu] at hfx
      rw [← hfx]
    · rw [if_neg hxu] at hfx
      rw [← hfx] at hu
      exact absurd hu hxu
  · rw [if_neg hany]
    intro r hr hu
    rcases List.mem_append.mp hr with hin | hin
    · have : ¬ (db.any (fun r => r.user_id = uid) = true) := hany
      rw [List.any_eq_true] at this
      exact absurd ⟨r, hin, decide_eq_true hu⟩ this
    · have : r = ⟨uid, blob, vis, 0⟩ := List.mem_singleton.mp hin
      rw [this]

/-- Claim C3: for every latitude and longitude, and for every nonce choice
the cipher may make, decrypting the encryption of `(lat, lon)` returns exactly
the pair `(lat, lon)`.  The model works with exact number values through the
codec's `parse_print` round trip (CPython guarantees `float(repr(x)) == x`),
so the float-tolerance caveat is subsumed by exact equality; the statement is
for all coordinates, hence in particular for the in-range ones. -/
theorem claim_C3_roundtrip (F : Type) (M : GCMModel) (C : NumCodec F) (iv : Bytes)
    (hlen : iv.length = 12) (hiv : ∀ b ∈ iv, b < 256) (lat lon : F) :
    decrypt_location M C (encrypt_location M C iv lat lon) = .ok (lat, lon) :=
  decrypt_encrypt M C iv hlen hiv lat lon

/-- Witness for C3 at the concrete in-range pair (40, -74). -/
theorem claim_C3_roundtrip_witness :
    ivZ.length = 12 ∧ (∀ b ∈ ivZ, b < 256) ∧
    ((-90 : Int) ≤ 40 ∧ (40 : Int) ≤ 90 ∧ (-180 : Int) ≤ -74 ∧ (-74 : Int) ≤ 180) ∧
    decrypt_location gcmZero intCodec (encrypt_location gcmZero intCodec ivZ 40 (-74))
      = .ok (40, -74) :=
  ⟨rfl, by decide, by norm_num,
   claim_C3_roundtrip Int gcmZero intCodec ivZ rfl (by decide) 40 (-74)⟩

/-- Claim C4: decryption is fail-closed.  `decrypt_location` returns a
coordinate pair only when the token base64-decodes, the iv/tag length checks
pass, the authentication tag verifies, and the decrypted payload parses as a
coordinate dict — and then the returned pair is exactly the parsed one.
Contrapositively, for every malformed token, every token whose tag does not
verify (the byte-flip tamper case of the claim is an instance of this class,
by GCM's authentication), and every token whose payload does not parse, the
function raises instead of returning any pair; being a total function into
`Except`, it never partially succeeds. -/
theorem claim_C4_fail_closed (F : Type) (M : GCMModel) (C : NumCodec F) (token : Bytes)
    (lat lon : F) (h : decrypt_location M C token = .ok (lat, lon)) :
    ∃ raw, b64decode token = some raw ∧
      ¬((raw.take 12).length < 8 ∨ ((raw.drop 12).take 16).length < 16) ∧
      M.tagOf (raw.take 12) (raw.drop 28) = (raw.drop 12).take 16 ∧
      jsonLoads C (xorStream (M.keystream (raw.take 12)) 0 (raw.drop 28)) = some (lat, lon) := by
  rw [decrypt_location] at h
  cases hb : b64decode token with
  | none => simp [hb] at h
  | some raw =>
      simp only [hb] at h
      by_cases hlen : (raw.take 12).length < 8 ∨ ((raw.drop 12).take 16).length < 16
      · rw [if_pos hlen] at h; exact absurd h (by simp)
      · rw [if_neg hlen] at h
        by_cases htag : M.tagOf (raw.take 12) (raw.drop 28) ≠ (raw.drop 12).take 16
        · rw [if_pos htag] at h; exact absurd h (by simp)
        · rw [if_neg htag] at h
          cases hj : jsonLoads C (xorStream (M.keystream (raw.take 12)) 0 (raw.drop 28)) with
          | none => simp [hj] at h
          | some p =>
              obtain ⟨a, b⟩ := p
              simp only [hj] at h
              injection h with h
              obtain ⟨ha, hb2⟩ := Prod.mk.injEq a b lat lon ▸ h
              exact ⟨raw, rfl, hlen, not_not.mp htag, by rw [hj, ha, hb2]⟩

/-- Witness for C4 at a concrete well-formed token. -/
theorem claim_C4_fail_closed_witness :
    decrypt_location gcmZero intCodec (encrypt_location gcmZero intCodec ivZ 7 9)
      = .ok (7, 9) ∧
    ∃ raw, b64decode (encrypt_location gcmZero intCodec ivZ 7 9) = some raw ∧
      ¬((raw.take 12).length < 8 ∨ ((raw.drop 12).take 16).length < 16) ∧
      gcmZero.tagOf (raw.take 12) (raw.drop 28) = (raw.drop 12).take 16 ∧
      jsonLoads intCodec (xorStream (gcmZero.keystream (raw.take 12)) 0 (raw.drop 28))
        = some (7, 9) :=
  ⟨rfl, claim_C4_fail_closed Int gcmZero intCodec _ 7 9 rfl⟩

/-- Claim C5 counterexample: latitude 200 lies outside [-90, 90], yet
`update_location` accepts it, encrypts it and persists the blob — there is no
validation, so nothing rejects the request before store access. -/
theorem claim_C5_counterexample :
    (90 : Int) < 200 ∧
    update_location ctxZ ivZ [] ⟨"u1", 200, 0, "public"⟩ =
      ([⟨"u1", encrypt_location gcmZero intCodec ivZ 200 0, "public", 0⟩],
       ⟨"success", "Location updated"⟩) :=
  ⟨by norm_num, rfl⟩

/-- Claim C5 amended: every blob persisted by `update_location` is produced
by encrypting exactly the request's latitude and longitude, but those are not
constrained to [-90, 90] ⨯ [-180, 180]: the handler performs no
coordinate-range validation, so out-of-range requests succeed, are encrypted
and persisted like any others. -/
theorem claim_C5_amended (F : Type) (ctx : RouterCtx F) (iv : Bytes) (db : List LocationRow)
    (loc : UserLocation F) :
    (update_location ctx iv db loc).2 = ⟨"success", "Location updated"⟩ ∧
    (⟨loc.user_id, encrypt_location ctx.M ctx.C iv loc.latitude loc.longitude,
      loc.visibility, 0⟩ : LocationRow) ∈ (update_location ctx iv db loc).1 ∧
    ∀ r ∈ (update_location ctx iv db loc).1, r.user_id = loc.user_id →
      r.encrypted_data = encrypt_location ctx.M ctx.C iv loc.latitude loc.longitude :=
  ⟨rfl, upsert_mem db loc.user_id _ loc.visibility,
   upsert_id_blob db loc.user_id _ loc.visibility⟩

/-- Witness for the amended C5. -/
theorem claim_C5_amended_witness :
    (update_location ctxZ ivZ [] ⟨"w5", 1, 2, "hidden"⟩).2 = ⟨"success", "Location updated"⟩ ∧
    (⟨"w5", encrypt_location ctxZ.M ctxZ.C ivZ 1 2, "hidden", 0⟩ : LocationRow)
      ∈ (update_location ctxZ ivZ [] ⟨"w5", 1, 2, "hidden"⟩).1 ∧
    ∀ r ∈ (update_location ctxZ ivZ [] ⟨"w5", 1, 2, "hidden"⟩).1, r.user_id = "w5" →
      r.encrypted_data = encrypt_location ctxZ.M ctxZ.C ivZ 1 2 :=
  claim_C5_amended Int ctxZ ivZ [] ⟨"w5", 1, 2, "hidden"⟩

/-- A decryptable blob at coordinates (1, 2). -/
def blobA : Bytes := encrypt_location gcmZero intCodec ivZ 1 2

/-- The requesting user's fresh row. -/
def rowSelf : LocationRow := ⟨"alice", blobA, "public", 0⟩

/-- A fresh public candidate row with a valid blob. -/
def rowBob : LocationRow := ⟨"bob", blobA, "public", 1⟩

/-- A public candidate row with a valid blob that is 3 days old. -/
def rowStale : LocationRow := ⟨"dave", blobA, "public", 72⟩

/-- Claim C6 counterexample: with `max_distance_km = 0.0` supplied, a
candidate at distance 5 km (strictly greater than 0.0) is retained in the
results and counted in `total_found`, because `0.0` is falsy in Python and
disables the filter — the claim says it should be excluded. -/
theorem claim_C6_counterexample :
    (0 : ℚ) < 5 ∧
    find_nearest_users_by_coords ctx5 [rowBob] ⟨0, 0, 10, some 0⟩ =
      .ok ⟨none, [⟨"bob", 5, "public"⟩], 1⟩ :=
  ⟨by norm_num, rfl⟩

theorem length_filterMap_eq_filter {α β : Type} (f : α → Option β) (l : List α) :
    (l.filterMap f).length = (l.filter (fun x => (f x).isSome)).length := by
  induction l with
  | nil => rfl
  | cons x xs ih =>
      cases hf : f x <;> simp [List.filterMap_cons, List.filter_cons, hf, ih]

theorem maxDistActive_some_iff {m d : ℚ} : maxDistActive (some m) d = true ↔ m ≠ 0 ∧ m < d := by
  rw [maxDistActive]
  simp

/-- Spec-side candidate set with the distance bound made explicit:
non-private rows of the last 48 hours whose blob decrypts and whose computed
distance is at most `m`. -/
def withinDistance {F : Type} (ctx : RouterCtx F) (db : List LocationRow) (refpt : F × F)
    (m : ℚ) : List LocationRow :=
  db.filter (fun r => r.visibility ≠ "private" ∧ r.age_hours < 48 ∧
    (match decrypt_location ctx.M ctx.C r.encrypted_data with
     | .ok (lat, lon) => decide (ctx.geodesic refpt (lat, lon) ≤ m)
     | .error _ => false) = true)

theorem rowEntry?_isSome_iff_within {F : Type} (ctx : RouterCtx F) (refpt : F × F)
    (m : ℚ) (hm0 : m ≠ 0) (r : LocationRow) :
    (((rowEntry? ctx refpt (some m) r).isSome ∧ r.visibility ≠ "private" ∧ r.age_hours < 48) ↔
     (r.visibility ≠ "private" ∧ r.age_hours < 48 ∧
      (match decrypt_location ctx.M ctx.C r.encrypted_data with
       | .ok (lat, lon) => decide (ctx.geodesic refpt (lat, lon) ≤ m)
       | .error _ => false) = true)) := by
  cases hd : decrypt_location ctx.M ctx.C r.encrypted_data with
  | error e => rw [rowEntry?]; simp [hd]
  | ok p =>
      obtain ⟨lat, lon⟩ := p
      rw [rowEntry?]
      simp only [hd]
      by_cases hdist : ctx.geodesic refpt (lat, lon) ≤ m
      · rw [if_neg (by rw [maxDistActive_some_iff]; exact fun hc => absurd hc.2 (not_lt.mpr hdist))]
        simp [hdist]
      · rw [if_pos (maxDistActive_some_iff.mpr ⟨hm0, lt_of_not_le hdist⟩)]
        simp [hdist]

/-- The coords-variant candidate count equals the size of the explicit
distance-bounded set, once the filter is active. -/
theorem coordsCandidates_length_within {F : Type} (ctx : RouterCtx F) (db : List LocationRow)
    (req : NearestByCoordinatesRequest F) (m : ℚ)
    (hm : req.max_distance_km = some m) (hm0 : m ≠ 0) :
    (coordsCandidates ctx db req).length
      = (withinDistance ctx db (req.latitude, req.longitude) m).length := by
  rw [coordsCandidates, hm, length_filterMap_eq_filter, List.filter_filter, withinDistance]
  congr 1
  apply List.filter_congr
  intro r hr
  have := rowEntry?_isSome_iff_within ctx (req.latitude, req.longitude) m hm0 r
  rw [Bool.eq_iff_iff]
  simp only [Bool.and_eq_true, decide_eq_true_eq]
  exact this

/-- Spec-side distance filter over an already-fetched candidate row list:
rows whose blob decrypts and whose computed distance from the reference point
is at most `m`. -/
def distWithin {F : Type} (ctx : RouterCtx F) (l : List LocationRow) (refpt : F × F)
    (m : ℚ) : List LocationRow :=
  l.filter (fun r =>
    (match decrypt_location ctx.M ctx.C r.encrypted_data with
     | .ok (lat, lon) => decide (ctx.geodesic refpt (lat, lon) ≤ m)
     | .error _ => false) = true)

theorem rowEntry?_isSome_iff_dist {F : Type} (ctx : RouterCtx F) (refpt : F × F)
    (m : ℚ) (hm0 : m ≠ 0) (r : LocationRow) :
    ((rowEntry? ctx refpt (some m) r).isSome ↔
     (match decrypt_location ctx.M ctx.C r.encrypted_data with
      | .ok (lat, lon) => decide (ctx.geodesic refpt (lat, lon) ≤ m)
      | .error _ => false) = true) := by
  cases hd : decrypt_location ctx.M ctx.C r.encrypted_data with
  | error e => rw [rowEntry?]; simp [hd]
  | ok p =>
      obtain ⟨lat, lon⟩ := p
      rw [rowEntry?]
      simp only [hd]
      by_cases hdist : ctx.geodesic refpt (lat, lon) ≤ m
      · rw [if_neg (by rw [maxDistActive_some_iff]; exact fun hc => absurd hc.2 (not_lt.mpr hdist))]
        simp [hdist]
      · rw [if_pos (maxDistActive_some_iff.mpr ⟨hm0, lt_of_not_le hdist⟩)]
        simp [hdist]

/-- Over any candidate list, the number of entries surviving a nonzero
distance bound equals the size of the explicit distance-bounded set. -/
theorem filterMap_length_distWithin {F : Type} (ctx : RouterCtx F) (refpt : F × F)
    (m : ℚ) (hm0 : m ≠ 0) (l : List LocationRow) :
    (l.filterMap (rowEntry? ctx refpt (some m))).length = (distWithin ctx l refpt m).length := by
  rw [length_filterMap_eq_filter, distWithin]
  congr 1
  apply List.filter_congr
  intro r hr
  rw [Bool.eq_iff_iff]
  simp only [decide_eq_true_eq]
  exact rowEntry?_isSome_iff_dist ctx refpt m hm0 r

/-- A successful reference-variant candidate loop computes exactly the
`filterMap` of the loop body over the candidate list. -/
theorem collectNearest_ok_eq {F : Type} (ctx : RouterCtx F) (refpt : F × F) (maxd : Option ℚ)
    (l : List LocationRow) (out : List NearestEntry)
    (h : collectNearest ctx refpt maxd l = .ok out) :
    out = l.filterMap (rowEntry? ctx refpt maxd) := by
  induction l generalizing out with
  | nil =>
      rw [collectNearest] at h
      injection h with h
      rw [← h]
      rfl
  | cons loc rest ih =>
      rw [collectNearest] at h
      cases hp : decrypt_location ctx.M ctx.C loc.encrypted_data with
      | error err => simp [hp] at h
      | ok p =>
          obtain ⟨lat, lon⟩ := p
          cases hc : collectNearest ctx refpt maxd rest with
          | error err => simp [hp, hc] at h
          | ok tail =>
              simp only [hp, hc] at h
              have htail := ih tail hc
              by_cases hd : maxDistActive maxd (ctx.geodesic refpt (lat, lon)) = true
              · rw [if_pos hd] at h
                injection h with h
                have hfe : rowEntry? ctx refpt maxd loc = none := by
                  simp only [rowEntry?, hp]
                  rw [if_pos hd]
                rw [List.filterMap_cons, hfe, ← h, htail]
              · rw [if_neg hd] at h
                injection h with h
                have hfe : rowEntry? ctx refpt maxd loc = some
                    ⟨loc.user_id, ctx.round2 (ctx.geodesic refpt (lat, lon)),
                     loc.visibility⟩ := by
                  simp only [rowEntry?, hp]
                  rw [if_neg hd]
                rw [List.filterMap_cons, hfe, ← h, htail]

/-- Claim C6 amended: in both variants the distance filter behaves as claimed
only when the supplied `max_distance_km` is nonzero — Python truthiness
treats `0.0` like an absent filter.  For a nonzero bound `m`: in the
coordinates-only variant, `total_found` counts exactly the candidates whose
computed distance is at most `m` (strictly-farther ones are excluded from the
count) and every returned entry arises from such a candidate; in the
reference-user variant, the same holds of the windowed candidate list, with
distances measured from the decrypted self location. -/
theorem claim_C6_amended :
    (∀ (F : Type) (ctx : RouterCtx F) (db : List LocationRow)
       (req : NearestByCoordinatesRequest F) (m : ℚ) (resp : CoordsData),
       req.max_distance_km = some m → m ≠ 0 →
       find_nearest_users_by_coords ctx db req = .ok resp →
       resp.total_found = (withinDistance ctx db (req.latitude, req.longitude) m).length ∧
       ∀ e ∈ resp.nearest_users, ∃ r ∈ withinDistance ctx db (req.latitude, req.longitude) m,
         rowEntry? ctx (req.latitude, req.longitude) (some m) r = some e) ∧
    (∀ (F : Type) (ctx : RouterCtx F) (db : List LocationRow)
       (req : NearestUsersRequest) (m : ℚ) (resp : NearbyData),
       req.max_distance_km = some m → m ≠ 0 →
       find_nearest_users ctx db req = .ok resp →
       ∃ selfRow pt,
         decrypt_location ctx.M ctx.C selfRow.encrypted_data = .ok pt ∧
         (fetchSelf db req.user_id 48 = some selfRow ∨
          fetchSelf db req.user_id 168 = some selfRow) ∧
         resp.total_found = (distWithin ctx
           (if fetchOthers db req.user_id 48 = [] then fetchOthers db req.user_id 168
            else fetchOthers db req.user_id 48) pt m).length ∧
         ∀ e ∈ resp.nearest_users, ∃ r ∈ distWithin ctx
           (if fetchOthers db req.user_id 48 = [] then fetchOthers db req.user_id 168
            else fetchOthers db req.user_id 48) pt m,
           rowEntry? ctx pt (some m) r = some e) := by
  constructor
  · intro F ctx db req m resp hm hm0 h
    rw [find_nearest_users_by_coords_eq] at h
    by_cases hl : req.limit < 1 ∨ 100 < req.limit
    · rw [if_pos hl] at h; exact absurd h (by simp)
    · rw [if_neg hl] at h
      injection h with h
      subst h
      constructor
      · show (sortByDistance (coordsCandidates ctx db req)).length = _
        rw [sortByDistance_length, coordsCandidates_length_within ctx db req m hm hm0]
      · intro e he
        have he2 : e ∈ sortByDistance (coordsCandidates ctx db req) := List.mem_of_mem_take he
        have he3 : e ∈ coordsCandidates ctx db req := mem_sortByDistance.mp he2
        rw [coordsCandidates, hm] at he3
        obtain ⟨r, hr, hfr⟩ := List.mem_filterMap.mp he3
        have hP := List.of_mem_filter hr
        simp only [decide_eq_true_eq] at hP
        have hin : r ∈ withinDistance ctx db (req.latitude, req.longitude) m := by
          apply List.mem_filter.mpr
          refine ⟨List.mem_of_mem_filter hr, ?_⟩
          have hiff := rowEntry?_isSome_iff_within ctx (req.latitude, req.longitude) m hm0 r
          have hs : (rowEntry? ctx (req.latitude, req.longitude) (some m) r).isSome := by
            rw [hfr]; rfl
          exact decide_eq_true (hiff.mp ⟨hs, hP.1, hP.2⟩)
        exact ⟨r, hin, hfr⟩
  · intro F ctx db req m resp hm hm0 h
    obtain ⟨selfRow, window, pt, nearest, hw, hdec, hcoll, hresp, hl⟩ :=
      find_nearest_users_ok_shape ctx db req resp h
    have hne := collectNearest_ok_eq ctx pt req.max_distance_km _ nearest hcoll
    refine ⟨selfRow, pt, hdec, ?_, ?_, ?_⟩
    · rcases hw with ⟨h48, _⟩ | ⟨_, h168, _⟩
      · exact Or.inl h48
      · exact Or.inr h168
    · rw [hresp]
      show (sortByDistance nearest).length = _
      rw [sortByDistance_length, hne, hm]
      exact filterMap_length_distWithin ctx pt m hm0 _
    · intro e he
      rw [hresp] at he
      have he3 : e ∈ nearest := mem_sortByDistance.mp (List.mem_of_mem_take he)
      rw [hne, hm] at he3
      obtain ⟨r, hr, hfr⟩ := List.mem_filterMap.mp he3
      refine ⟨r, ?_, hfr⟩
      apply List.mem_filter.mpr
      refine ⟨hr, ?_⟩
      have hs : (rowEntry? ctx pt (some m) r).isSome := by
        rw [hfr]; rfl
      exact decide_eq_true ((rowEntry?_isSome_iff_dist ctx pt m hm0 r).mp hs)

/-- Witness for the amended C6, exercising both variants with bound 3 km and
a candidate at 5 km: the candidate is excluded and the count is 0. -/
theorem claim_C6_amended_witness :
    (find_nearest_users_by_coords ctx5 [rowBob] ⟨0, 0, 10, some 3⟩ = .ok ⟨none, [], 0⟩ ∧
     ((0 : Nat) = (withinDistance ctx5 [rowBob] ((0 : Int), (0 : Int)) 3).length ∧
      ∀ e ∈ ([] : List NearestEntry),
        ∃ r ∈ withinDistance ctx5 [rowBob] ((0 : Int), (0 : Int)) 3,
          rowEntry? ctx5 ((0 : Int), (0 : Int)) (some 3) r = some e)) ∧
    (find_nearest_users ctx5 [rowSelf, rowBob] ⟨"alice", 10, some 3⟩
       = .ok ⟨"alice", [], 0, "48 hours"⟩ ∧
     ∃ selfRow pt,
       decrypt_location ctx5.M ctx5.C selfRow.encrypted_data = .ok pt ∧
       (fetchSelf [rowSelf, rowBob] "alice" 48 = some selfRow ∨
        fetchSelf [rowSelf, rowBob] "alice" 168 = some selfRow) ∧
       (0 : Nat) = (distWithin ctx5
         (if fetchOthers [rowSelf, rowBob] "alice" 48 = []
          then fetchOthers [rowSelf, rowBob] "alice" 168
          else fetchOthers [rowSelf, rowBob] "alice" 48) pt 3).length ∧
       ∀ e ∈ ([] : List NearestEntry), ∃ r ∈ distWithin ctx5
         (if fetchOthers [rowSelf, rowBob] "alice" 48 = []
          then fetchOthers [rowSelf, rowBob] "alice" 168
          else fetchOthers [rowSelf, rowBob] "alice" 48) pt 3,
         rowEntry? ctx5 pt (some 3) r = some e) :=
  ⟨⟨rfl, claim_C6_amended.1 Int ctx5 [rowBob] ⟨0, 0, 10, some 3⟩ 3 ⟨none, [], 0⟩ rfl
      (by norm_num) rfl⟩,
   ⟨rfl, claim_C6_amended.2 Int ctx5 [rowSelf, rowBob] ⟨"alice", 10, some 3⟩ 3
      ⟨"alice", [], 0, "48 hours"⟩ rfl (by norm_num) rfl⟩⟩

/-- Claim C8 counterexample: a decryptable public record 3 days old — inside
the 7-day window, outside the 48-hour window — yields an empty
coordinates-only result: the coords variant never widens its candidate window
to 7 days, contradicting the claimed fallback. -/
theorem claim_C8_counterexample :
    rowStale.visibility = "public" ∧ rowStale.age_hours < 168 ∧
    ¬ rowStale.age_hours < 48 ∧
    (∃ p, decrypt_location gcmZero intCodec rowStale.encrypted_data = .ok p) ∧
    find_nearest_users_by_coords ctxZ [rowStale] ⟨0, 0, 10, none⟩ = .ok ⟨none, [], 0⟩ :=
  ⟨rfl, by norm_num [rowStale], by norm_num [rowStale], ⟨(1, 2), rfl⟩, rfl⟩

/-- Claim C8 amended: the coordinates-only variant indeed performs no
self-resolution and cannot fail with the self-not-found error — any in-bounds
limit yields a success — but its candidate set is drawn from the single fixed
48-hour window only: rows older than 48 hours never influence the response,
and there is no widening to 7 days when the 48-hour window is empty. -/
theorem claim_C8_amended :
    (∀ (F : Type) (ctx : RouterCtx F) (db : List LocationRow)
       (req : NearestByCoordinatesRequest F), ¬(req.limit < 1 ∨ 100 < req.limit) →
       ∃ resp, find_nearest_users_by_coords ctx db req = .ok resp) ∧
    (∀ (F : Type) (ctx : RouterCtx F) (db : List LocationRow)
       (req : NearestByCoordinatesRequest F),
       find_nearest_users_by_coords ctx db req =
         find_nearest_users_by_coords ctx (db.filter (fun r => r.age_hours < 48)) req) := by
  constructor
  · intro F ctx db req hl
    rw [find_nearest_users_by_coords_eq, if_neg hl]
    exact ⟨_, rfl⟩
  · intro F ctx db req
    have hcc : coordsCandidates ctx (db.filter (fun r => r.age_hours < 48)) req
        = coordsCandidates ctx db req := by
      rw [coordsCandidates, coordsCandidates, List.filter_filter]
      congr 1
      apply List.filter_congr
      intro r hr
      rw [Bool.eq_iff_iff]
      simp only [Bool.and_eq_true, decide_eq_true_eq]
      constructor
      · exact fun hx => hx.1
      · exact fun hx => ⟨hx, hx.2⟩
    rw [find_nearest_users_by_coords_eq, find_nearest_users_by_coords_eq, hcc]

/-- Witness for the amended C8. -/
theorem claim_C8_amended_witness :
    (∃ resp, find_nearest_users_by_coords ctxZ [] ⟨0, 0, 10, none⟩ = .ok resp) ∧
    find_nearest_users_by_coords ctxZ [rowStale] ⟨0, 0, 10, none⟩ =
      find_nearest_users_by_coords ctxZ ([rowStale].filter (fun r => r.age_hours < 48))
        ⟨0, 0, 10, none⟩ :=
  ⟨claim_C8_amended.1 Int ctxZ [] ⟨0, 0, 10, none⟩ (by norm_num),
   claim_C8_amended.2 Int ctxZ [rowStale] ⟨0, 0, 10, none⟩⟩

theorem fetchSelf_eq_none {db : List LocationRow} {uid : String} {w : ℚ}
    (h : ∀ r ∈ db, r.user_id = uid → ¬ r.age_hours < w) : fetchSelf db uid w = none := by
  rw [fetchSelf, List.filter_eq_nil_iff.mpr]
  · rfl
  · intro r hr
    simp only [decide_eq_true_eq, not_and]
    exact h r hr

theorem fetchSelf_of_exists {db : List LocationRow} {uid : String} {w : ℚ}
    (h : ∃ r ∈ db, r.user_id = uid ∧ r.age_hours < w) :
    ∃ s, fetchSelf db uid w = some s := by
  obtain ⟨r, hr, hp⟩ := h
  have hmem : r ∈ db.filter (fun r => r.user_id = uid ∧ r.age_hours < w) :=
    List.mem_filter.mpr ⟨hr, by simp [hp.1, hp.2]⟩
  rw [fetchSelf]
  cases hf : db.filter (fun r => r.user_id = uid ∧ r.age_hours < w) with
  | nil => rw [hf] at hmem; simp at hmem
  | cons a t => exact ⟨a, rfl⟩

/-- When every row of the database decrypts, the whole candidate list of the
reference variant decrypts, whichever window was used. -/
theorem candidates_decrypt {F : Type} (ctx : RouterCtx F) (db : List LocationRow)
    (uid : String) (hd : ∀ r ∈ db, ∃ p, decrypt_location ctx.M ctx.C r.encrypted_data = .ok p) :
    ∀ r ∈ (if fetchOthers db uid 48 = [] then fetchOthers db uid 168
           else fetchOthers db uid 48), ∃ p, decrypt_location ctx.M ctx.C r.encrypted_data = .ok p := by
  intro r hr
  by_cases h48 : fetchOthers db uid 48 = []
  · rw [if_pos h48] at hr
    exact hd r (fetchOthers_mem hr).1
  · rw [if_neg h48] at hr
    exact hd r (fetchOthers_mem hr).1

/-- Claim C7: reference-user recency fallback.  If the requesting user has no
fix within 48 hours but does have one within 7 days (for instance a 3-day-old
fix), the self lookup fails under the 48-hour window, succeeds once the 7-day
window is tried, and the response reports the 7-day window; if the user has
no fix within 7 days either, the query fails with the 404 not-found error. -/
theorem claim_C7_fallback :
    (∀ (F : Type) (ctx : RouterCtx F) (db : List LocationRow) (req : NearestUsersRequest),
       (∀ r ∈ db, r.user_id = req.user_id → ¬ r.age_hours < 48) →
       (∃ r ∈ db, r.user_id = req.user_id ∧ r.age_hours < 168) →
       (∀ r ∈ db, ∃ p, decrypt_location ctx.M ctx.C r.encrypted_data = .ok p) →
       ¬(req.limit < 1 ∨ 100 < req.limit) →
       ∃ resp, find_nearest_users ctx db req = .ok resp ∧ resp.time_window = "7 days") ∧
    (∀ (F : Type) (ctx : RouterCtx F) (db : List LocationRow) (req : NearestUsersRequest),
       (∀ r ∈ db, r.user_id = req.user_id → ¬ r.age_hours < 168) →
       ¬(req.limit < 1 ∨ 100 < req.limit) →
       find_nearest_users ctx db req
         = .error ⟨404, "User location not found or is older than 7 days"⟩) := by
  constructor
  · intro F ctx db req h48 h168 hd hl
    have hn48 : fetchSelf db req.user_id 48 = none := fetchSelf_eq_none h48
    obtain ⟨s, hs⟩ := fetchSelf_of_exists h168
    obtain ⟨p, hdec⟩ := hd s (fetchSelf_mem hs).1
    obtain ⟨lat, lon⟩ := p
    have hcoll := collectNearest_ok ctx (lat, lon) req.max_distance_km _
      (candidates_decrypt ctx db req.user_id hd)
    rw [find_nearest_users, if_neg hl]
    simp only [hn48, hs, hdec, List.isEmpty_eq_true, hcoll]
    exact ⟨_, rfl, rfl⟩
  · intro F ctx db req h168 hl
    have hn48 : fetchSelf db req.user_id 48 = none :=
      fetchSelf_eq_none (fun r hr hu hlt => h168 r hr hu (by linarith))
    have hn168 : fetchSelf db req.user_id 168 = none := fetchSelf_eq_none h168
    rw [find_nearest_users, if_neg hl]
    simp only [hn48, hn168]

/-- A 3-day-old own fix (between 48 hours and 7 days). -/
def rowErin : LocationRow := ⟨"erin", blobA, "public", 72⟩

/-- An own fix older than 7 days. -/
def rowFrank : LocationRow := ⟨"frank", blobA, "public", 200⟩

/-- Witness for C7: the 3-day-old fix resolves under the 7-day window and the
response reports it; the 200-hour-old fix yields the 404. -/
theorem claim_C7_fallback_witness :
    (∃ resp, find_nearest_users ctxZ [rowErin] ⟨"erin", 10, none⟩ = .ok resp ∧
      resp.time_window = "7 days") ∧
    find_nearest_users ctxZ [rowFrank] ⟨"frank", 10, none⟩
      = .error ⟨404, "User location not found or is older than 7 days"⟩ :=
  ⟨claim_C7_fallback.1 Int ctxZ [rowErin] ⟨"erin", 10, none⟩
    (by intro r hr _; simp only [List.mem_singleton] at hr; subst hr; norm_num [rowErin])
    ⟨rowErin, by simp, rfl, by norm_num [rowErin]⟩
    (by intro r hr; simp only [List.mem_singleton] at hr; subst hr; exact ⟨(1, 2), rfl⟩)
    (by norm_num),
   claim_C7_fallback.2 Int ctxZ [rowFrank] ⟨"frank", 10, none⟩
    (by intro r hr _; simp only [List.mem_singleton] at hr; subst hr; norm_num [rowFrank])
    (by norm_num)⟩

/-- Claim C10: the time window reported by the reference-user query is
determined solely by the self-lookup fallback.  Whenever the requesting
user's own fix is within 48 hours, every successful response reports
"48 hours" — and the second conjunct exhibits that this holds even when the
48-hour candidate set is empty and the returned candidates were actually
drawn from the 7-day window (the response still has a nonempty result). -/
theorem claim_C10_window :
    (∀ (F : Type) (ctx : RouterCtx F) (db : List LocationRow) (req : NearestUsersRequest)
       (resp : NearbyData),
       (∃ r ∈ db, r.user_id = req.user_id ∧ r.age_hours < 48) →
       find_nearest_users ctx db req = .ok resp → resp.time_window = "48 hours") ∧
    (∀ (F : Type) (ctx : RouterCtx F) (db : List LocationRow) (req : NearestUsersRequest),
       (∃ r ∈ db, r.user_id = req.user_id ∧ r.age_hours < 48) →
       fetchOthers db req.user_id 48 = [] →
       (∃ c ∈ db, c.user_id ≠ req.user_id ∧ c.visibility ≠ "private" ∧ c.age_hours < 168) →
       (∀ r ∈ db, ∃ p, decrypt_location ctx.M ctx.C r.encrypted_data = .ok p) →
       req.max_distance_km = none →
       ¬(req.limit < 1 ∨ 100 < req.limit) →
       ∃ resp, find_nearest_users ctx db req = .ok resp ∧
         resp.time_window = "48 hours" ∧ 0 < resp.total_found) := by
  constructor
  · intro F ctx db req resp hself h
    obtain ⟨selfRow, window, pt, nearest, hw, _, _, hresp, _⟩ :=
      find_nearest_users_ok_shape ctx db req resp h
    rcases hw with ⟨_, hw48⟩ | ⟨hnone, _, _⟩
    · rw [hresp, hw48]
    · obtain ⟨s, hs⟩ := fetchSelf_of_exists hself
      rw [hs] at hnone
      exact absurd hnone (by simp)
  · intro F ctx db req hself hempty48 hcand hd hmaxd hl
    obtain ⟨s, hs⟩ := fetchSelf_of_exists hself
    obtain ⟨⟨slat, slon⟩, hdec⟩ := hd s (fetchSelf_mem hs).1
    have hcoll := collectNearest_ok ctx (slat, slon) req.max_distance_km _
      (candidates_decrypt ctx db req.user_id hd)
    rw [find_nearest_users, if_neg hl]
    simp only [hs, hdec, List.isEmpty_eq_true, hcoll]
    refine ⟨_, rfl, rfl, ?_⟩
    show 0 < (sortByDistance _).length
    rw [sortByDistance_length]
    obtain ⟨c, hc, hcu, hcv, hca⟩ := hcand
    obtain ⟨⟨clat, clon⟩, hcdec⟩ := hd c hc
    have hcmem : c ∈ (if fetchOthers db req.user_id 48 = [] then fetchOthers db req.user_id 168
        else fetchOthers db req.user_id 48) := by
      rw [if_pos hempty48]
      exact mem_fetchOthers hc hcu hcv hca
    have hentry : rowEntry? ctx (slat, slon) req.max_distance_km c
        = some ⟨c.user_id, ctx.round2 (ctx.geodesic (slat, slon) (clat, clon)), c.visibility⟩ := by
      rw [rowEntry?, hcdec, hmaxd]
      rfl
    have hmem2 := List.mem_filterMap.mpr ⟨c, hcmem, hentry⟩
    exact List.length_pos.mpr (List.ne_nil_of_mem hmem2)

/-- Witness for C10: self fresh at age 0, the only candidate 72 hours old, so
the candidate set comes from the 7-day window while the response still
reports "48 hours". -/
theorem claim_C10_window_witness :
    (NearbyData.time_window ⟨"alice", [⟨"dave", 0, "public"⟩], 1, "48 hours"⟩ = "48 hours") ∧
    (∃ resp, find_nearest_users ctxZ [rowSelf, rowStale] ⟨"alice", 10, none⟩ = .ok resp ∧
       resp.time_window = "48 hours" ∧ 0 < resp.total_found) :=
  ⟨claim_C10_window.1 Int ctxZ [rowSelf, rowStale] ⟨"alice", 10, none⟩
      ⟨"alice", [⟨"dave", 0, "public"⟩], 1, "48 hours"⟩
      ⟨rowSelf, by simp, rfl, by norm_num [rowSelf]⟩ rfl,
   claim_C10_window.2 Int ctxZ [rowSelf, rowStale] ⟨"alice", 10, none⟩
      ⟨rowSelf, by simp, rfl, by norm_num [rowSelf]⟩
      rfl
      ⟨rowStale, by simp, by decide, by decide, by norm_num [rowStale]⟩
      (by
        intro r hr
        simp only [List.mem_cons, List.not_mem_nil, or_false] at hr
        rcases hr with rfl | rfl
        · exact ⟨(1, 2), rfl⟩
        · exact ⟨(1, 2), rfl⟩)
      rfl
      (by norm_num)⟩

theorem rowEntry?_eq_some {F : Type} {ctx : RouterCtx F} {refpt : F × F} {maxd : Option ℚ}
    {r : LocationRow} {e : NearestEntry} (h : rowEntry? ctx refpt maxd r = some e) :
    e.user_id = r.user_id ∧ e.visibility = r.visibility := by
  rw [rowEntry?] at h
  cases hd : decrypt_location ctx.M ctx.C r.encrypted_data with
  | error err => simp [hd] at h
  | ok p =>
      obtain ⟨lat, lon⟩ := p
      simp only [hd] at h
      by_cases hm : maxDistActive maxd (ctx.geodesic refpt (lat, lon)) = true
      · rw [if_pos hm] at h; cases h
      · rw [if_neg hm] at h
        injection h with h
        exact ⟨by rw [← h], by rw [← h]⟩

/-- Every entry of a successful reference-variant response originates in a
non-private row of another user. -/
theorem ref_entry_provenance {F : Type} (ctx : RouterCtx F) (db : List LocationRow)
    (req : NearestUsersRequest) (resp : NearbyData)
    (h : find_nearest_users ctx db req = .ok resp) :
    ∀ e ∈ resp.nearest_users, ∃ loc ∈ db, loc.user_id ≠ req.user_id ∧
      loc.visibility ≠ "private" ∧ e.user_id = loc.user_id ∧ e.visibility = loc.visibility := by
  intro e he
  obtain ⟨selfRow, window, pt, nearest, hw, hdec, hcoll, hresp, hl⟩ :=
    find_nearest_users_ok_shape ctx db req resp h
  rw [hresp] at he
  have he2 : e ∈ sortByDistance nearest := List.mem_of_mem_take he
  have he3 : e ∈ nearest := mem_sortByDistance.mp he2
  obtain ⟨loc, hlm, lat, lon, hldec, hmd, hee⟩ :=
    collectNearest_mem ctx pt req.max_distance_km _ nearest hcoll e he3
  have hfo : loc ∈ db ∧ loc.user_id ≠ req.user_id ∧ loc.visibility ≠ "private" := by
    by_cases h48 : fetchOthers db req.user_id 48 = []
    · rw [if_pos h48] at hlm
      have hm2 := fetchOthers_mem hlm
      exact ⟨hm2.1, hm2.2.1, hm2.2.2.1⟩
    · rw [if_neg h48] at hlm
      have hm2 := fetchOthers_mem hlm
      exact ⟨hm2.1, hm2.2.1, hm2.2.2.1⟩
  exact ⟨loc, hfo.1, hfo.2.1, hfo.2.2, by rw [hee], by rw [hee]⟩

/-- Every entry of a successful coords-variant response originates in a
non-private row. -/
theorem coords_entry_provenance {F : Type} (ctx : RouterCtx F) (db : List LocationRow)
    (req : NearestByCoordinatesRequest F) (resp : CoordsData)
    (h : find_nearest_users_by_coords ctx db req = .ok resp) :
    ∀ e ∈ resp.nearest_users, ∃ loc ∈ db, loc.visibility ≠ "private" ∧
      e.user_id = loc.user_id ∧ e.visibility = loc.visibility := by
  intro e he
  rw [find_nearest_users_by_coords_eq] at h
  by_cases hl : req.limit < 1 ∨ 100 < req.limit
  · rw [if_pos hl] at h; exact absurd h (by simp)
  · rw [if_neg hl] at h
    injection h with h
    rw [← h] at he
    have he2 : e ∈ sortByDistance (coordsCandidates ctx db req) := List.mem_of_mem_take he
    have he3 : e ∈ coordsCandidates ctx db req := mem_sortByDistance.mp he2
    obtain ⟨loc, hlm, hfr⟩ := List.mem_filterMap.mp he3
    have hP := List.of_mem_filter hlm
    simp only [decide_eq_true_eq] at hP
    obtain ⟨heu, hev⟩ := rowEntry?_eq_some hfr
    exact ⟨loc, List.mem_of_mem_filter hlm, hP.1, heu, hev⟩

/-- Claim C1: visibility filtering.  Conjuncts: (1) every entry of a
successful reference-variant response is non-private and belongs to a user
other than the requester; (2) every entry of a successful coords-variant
response is non-private; (3)/(4) under the one-row-per-user invariant, a
PRIVATE record's user id never appears in the results of either variant when
queried on behalf of a different user (the coords variant has no requesting
user, so all private rows are excluded outright); (5)/(6) a PUBLIC or HIDDEN
record that passes the recency and distance filters, decrypts, and fits the
limit does appear, in both variants. -/
theorem claim_C1_visibility :
    (∀ (F : Type) (ctx : RouterCtx F) (db : List LocationRow) (req : NearestUsersRequest)
       (resp : NearbyData), find_nearest_users ctx db req = .ok resp →
       ∀ e ∈ resp.nearest_users, e.visibility ≠ "private" ∧ e.user_id ≠ req.user_id) ∧
    (∀ (F : Type) (ctx : RouterCtx F) (db : List LocationRow)
       (req : NearestByCoordinatesRequest F) (resp : CoordsData),
       find_nearest_users_by_coords ctx db req = .ok resp →
       ∀ e ∈ resp.nearest_users, e.visibility ≠ "private") ∧
    (∀ (F : Type) (ctx : RouterCtx F) (db : List LocationRow) (req : NearestUsersRequest)
       (resp : NearbyData) (r : LocationRow),
       db.Pairwise (fun a b => a.user_id ≠ b.user_id) →
       r ∈ db → r.visibility = "private" →
       find_nearest_users ctx db req = .ok resp →
       ∀ e ∈ resp.nearest_users, e.user_id ≠ r.user_id) ∧
    (∀ (F : Type) (ctx : RouterCtx F) (db : List LocationRow)
       (req : NearestByCoordinatesRequest F) (resp : CoordsData) (r : LocationRow),
       db.Pairwise (fun a b => a.user_id ≠ b.user_id) →
       r ∈ db → r.visibility = "private" →
       find_nearest_users_by_coords ctx db req = .ok resp →
       ∀ e ∈ resp.nearest_users, e.user_id ≠ r.user_id) ∧
    (∀ (F : Type) (ctx : RouterCtx F) (db : List LocationRow)
       (req : NearestByCoordinatesRequest F) (r : LocationRow) (lat lon : F),
       r ∈ db → (r.visibility = "public" ∨ r.visibility = "hidden") → r.age_hours < 48 →
       decrypt_location ctx.M ctx.C r.encrypted_data = .ok (lat, lon) →
       maxDistActive req.max_distance_km
         (ctx.geodesic (req.latitude, req.longitude) (lat, lon)) = false →
       ¬(req.limit < 1 ∨ 100 < req.limit) → (db.length : Int) ≤ req.limit →
       ∃ resp, find_nearest_users_by_coords ctx db req = .ok resp ∧
         r.user_id ∈ resp.nearest_users.map NearestEntry.user_id) ∧
    (∀ (F : Type) (ctx : RouterCtx F) (db : List LocationRow) (req : NearestUsersRequest)
       (r : LocationRow),
       (∀ x ∈ db, ∃ p, decrypt_location ctx.M ctx.C x.encrypted_data = .ok p) →
       (∃ s ∈ db, s.user_id = req.user_id ∧ s.age_hours < 168) →
       r ∈ db → r.user_id ≠ req.user_id →
       (r.visibility = "public" ∨ r.visibility = "hidden") → r.age_hours < 48 →
       req.max_distance_km = none →
       ¬(req.limit < 1 ∨ 100 < req.limit) → (db.length : Int) ≤ req.limit →
       ∃ resp, find_nearest_users ctx db req = .ok resp ∧
         r.user_id ∈ resp.nearest_users.map NearestEntry.user_id) := by
  refine ⟨?_, ?_, ?_, ?_, ?_, ?_⟩
  · intro F ctx db req resp h e he
    obtain ⟨loc, _, hne, hnp, heu, hev⟩ := ref_entry_provenance ctx db req resp h e he
    exact ⟨by rw [hev]; exact hnp, by rw [heu]; exact hne⟩
  · intro F ctx db req resp h e he
    obtain ⟨loc, _, hnp, _, hev⟩ := coords_entry_provenance ctx db req resp h e he
    rw [hev]; exact hnp
  · intro F ctx db req resp r huniq hr hpriv h e he heq
    obtain ⟨loc, hldb, _, hnp, heu, _⟩ := ref_entry_provenance ctx db req resp h e he
    have : loc = r := unique_ids_eq huniq loc hldb r hr (by rw [← heu, heq])
    rw [this, hpriv] at hnp
    exact hnp rfl
  · intro F ctx db req resp r huniq hr hpriv h e he heq
    obtain ⟨loc, hldb, hnp, heu, _⟩ := coords_entry_provenance ctx db req resp h e he
    have : loc = r := unique_ids_eq huniq loc hldb r hr (by rw [← heu, heq])
    rw [this, hpriv] at hnp
    exact hnp rfl
  · intro F ctx db req r lat lon hr hvis hage hdec hmd hl hlen
    have hvis' : r.visibility ≠ "private" := by
      rcases hvis with h | h <;> simp [h]
    rw [find_nearest_users_by_coords_eq, if_neg hl]
    refine ⟨_, rfl, ?_⟩
    have hfr : rowEntry? ctx (req.latitude, req.longitude) req.max_distance_km r
        = some ⟨r.user_id,
            ctx.round2 (ctx.geodesic (req.latitude, req.longitude) (lat, lon)),
            r.visibility⟩ := by
      simp only [rowEntry?, hdec]
      rw [if_neg (by rw [hmd]; exact Bool.false_ne_true)]
    have hmem : (⟨r.user_id,
        ctx.round2 (ctx.geodesic (req.latitude, req.longitude) (lat, lon)),
        r.visibility⟩ : NearestEntry) ∈ coordsCandidates ctx db req :=
      List.mem_filterMap.mpr ⟨r, List.mem_filter.mpr ⟨hr, by simp [hvis', hage]⟩, hfr⟩
    have hlen2 : (sortByDistance (coordsCandidates ctx db req)).length ≤ req.limit.toNat := by
      rw [sortByDistance_length]
      have h1 : (coordsCandidates ctx db req).length ≤ db.length :=
        le_trans (List.length_filterMap_le _ _) (List.length_filter_le _ _)
      omega
    rw [List.take_of_length_le hlen2]
    exact List.mem_map.mpr ⟨_, mem_sortByDistance.mpr hmem, rfl⟩
  · intro F ctx db req r hd hself hr hruid hvis hage hmaxd hl hlen
    have hvis' : r.visibility ≠ "private" := by
      rcases hvis with h | h <;> simp [h]
    have hne : fetchOthers db req.user_id 48 ≠ [] :=
      List.ne_nil_of_mem (mem_fetchOthers hr hruid hvis' hage)
    obtain ⟨⟨rlat, rlon⟩, hrdec⟩ := hd r hr
    have key : ∀ pt : F × F,
        r.user_id ∈ (List.take req.limit.toNat (sortByDistance
          (List.filterMap (rowEntry? ctx pt req.max_distance_km)
            (if fetchOthers db req.user_id 48 = [] then fetchOthers db req.user_id 168
             else fetchOthers db req.user_id 48)))).map NearestEntry.user_id := by
      intro pt
      rw [if_neg hne]
      have hfr : rowEntry? ctx pt req.max_distance_km r
          = some ⟨r.user_id, ctx.round2 (ctx.geodesic pt (rlat, rlon)), r.visibility⟩ := by
        rw [rowEntry?, hrdec, hmaxd]
        rfl
      have hmem : (⟨r.user_id, ctx.round2 (ctx.geodesic pt (rlat, rlon)),
          r.visibility⟩ : NearestEntry)
          ∈ (fetchOthers db req.user_id 48).filterMap (rowEntry? ctx pt req.max_distance_km) :=
        List.mem_filterMap.mpr ⟨r, mem_fetchOthers hr hruid hvis' hage, hfr⟩
      have hlen2 : (sortByDistance ((fetchOthers db req.user_id 48).filterMap
          (rowEntry? ctx pt req.max_distance_km))).length ≤ req.limit.toNat := by
        rw [sortByDistance_length]
        have h1 := le_trans (List.length_filterMap_le (rowEntry? ctx pt req.max_distance_km)
          (fetchOthers db req.user_id 48)) (List.length_filter_le _ db)
        omega
      rw [List.take_of_length_le hlen2]
      exact List.mem_map.mpr ⟨_, mem_sortByDistance.mpr hmem, rfl⟩
    cases h48 : fetchSelf db req.user_id 48 with
    | some s =>
        obtain ⟨⟨slat, slon⟩, hsdec⟩ := hd s (fetchSelf_mem h48).1
        have hcoll := collectNearest_ok ctx (slat, slon) req.max_distance_km _
          (candidates_decrypt ctx db req.user_id hd)
        rw [find_nearest_users, if_neg hl]
        simp only [h48, hsdec, List.isEmpty_eq_true, hcoll]
        exact ⟨_, rfl, key (slat, slon)⟩
    | none =>
        obtain ⟨s, hs⟩ := fetchSelf_of_exists hself
        obtain ⟨⟨slat, slon⟩, hsdec⟩ := hd s (fetchSelf_mem hs).1
        have hcoll := collectNearest_ok ctx (slat, slon) req.max_distance_km _
          (candidates_decrypt ctx db req.user_id hd)
        rw [find_nearest_users, if_neg hl]
        simp only [h48, hs, hsdec, List.isEmpty_eq_true, hcoll]
        exact ⟨_, rfl, key (slat, slon)⟩

/-- A private row. -/
def rowPriv : LocationRow := ⟨"peggy", blobA, "private", 0⟩

/-- A small store with a requester, a private user and a public user. -/
def dbC1 : List LocationRow := [rowSelf, rowPriv, rowBob]

/-- Witness for C1 on a concrete store: private "peggy" never appears, public
"bob" does, in both variants. -/
theorem claim_C1_visibility_witness :
    (∀ e ∈ ([⟨"bob", 0, "public"⟩] : List NearestEntry),
       e.visibility ≠ "private" ∧ e.user_id ≠ "alice") ∧
    (∀ e ∈ ([⟨"alice", 0, "public"⟩, ⟨"bob", 0, "public"⟩] : List NearestEntry),
       e.visibility ≠ "private") ∧
    (∀ e ∈ ([⟨"bob", 0, "public"⟩] : List NearestEntry), e.user_id ≠ "peggy") ∧
    (∀ e ∈ ([⟨"alice", 0, "public"⟩, ⟨"bob", 0, "public"⟩] : List NearestEntry),
       e.user_id ≠ "peggy") ∧
    (∃ resp, find_nearest_users_by_coords ctxZ dbC1 ⟨0, 0, 10, none⟩ = .ok resp ∧
       "bob" ∈ resp.nearest_users.map NearestEntry.user_id) ∧
    (∃ resp, find_nearest_users ctxZ dbC1 ⟨"alice", 10, none⟩ = .ok resp ∧
       "bob" ∈ resp.nearest_users.map NearestEntry.user_id) := by
  have hdecs : ∀ x ∈ dbC1, ∃ p, decrypt_location ctxZ.M ctxZ.C x.encrypted_data = .ok p := by
    intro x hx
    simp only [dbC1, List.mem_cons, List.not_mem_nil, or_false] at hx
    rcases hx with rfl | rfl | rfl <;> exact ⟨(1, 2), rfl⟩
  refine ⟨?_, ?_, ?_, ?_, ?_, ?_⟩
  · exact claim_C1_visibility.1 Int ctxZ dbC1 ⟨"alice", 10, none⟩
      ⟨"alice", [⟨"bob", 0, "public"⟩], 1, "48 hours"⟩ rfl
  · exact claim_C1_visibility.2.1 Int ctxZ dbC1 ⟨0, 0, 10, none⟩
      ⟨none, [⟨"alice", 0, "public"⟩, ⟨"bob", 0, "public"⟩], 2⟩ rfl
  · exact claim_C1_visibility.2.2.1 Int ctxZ dbC1 ⟨"alice", 10, none⟩
      ⟨"alice", [⟨"bob", 0, "public"⟩], 1, "48 hours"⟩ rowPriv (by decide) (by simp [dbC1])
      rfl rfl
  · exact claim_C1_visibility.2.2.2.1 Int ctxZ dbC1 ⟨0, 0, 10, none⟩
      ⟨none, [⟨"alice", 0, "public"⟩, ⟨"bob", 0, "public"⟩], 2⟩ rowPriv (by decide)
      (by simp [dbC1]) rfl rfl
  · exact claim_C1_visibility.2.2.2.2.1 Int ctxZ dbC1 ⟨0, 0, 10, none⟩ rowBob 1 2
      (by simp [dbC1]) (Or.inl rfl) (by norm_num [rowBob]) rfl rfl (by norm_num)
      (by norm_num [dbC1])
  · exact claim_C1_visibility.2.2.2.2.2 Int ctxZ dbC1 ⟨"alice", 10, none⟩ rowBob hdecs
      ⟨rowSelf, by simp [dbC1], rfl, by norm_num [rowSelf]⟩ (by simp [dbC1]) (by decide)
      (Or.inl rfl) (by norm_num [rowBob]) rfl (by norm_num) (by norm_num [dbC1])

/-- Claim C9: limit handling.  (1)/(2) A limit outside [1, 100] is rejected
with the 400 validation error by both variants, for every store state — the
result does not depend on the store, so no store access is needed.  (3) For
an in-bounds limit, the coords variant succeeds; its returned list together
with some remainder is a permutation of the candidate set, `total_found`
counts the candidates that passed the filters before truncation, the
returned list has `min limit total_found` elements, is sorted by distance,
and every returned entry is at most as far as every candidate left out — it
is the `limit` lowest-distance entries.  (4) The same holds of every
successful reference-variant response. -/
theorem claim_C9_limit :
    (∀ (F : Type) (ctx : RouterCtx F) (db : List LocationRow) (req : NearestUsersRequest),
       (req.limit < 1 ∨ 100 < req.limit) →
       find_nearest_users ctx db req = .error ⟨400, "Limit must be between 1 and 100"⟩) ∧
    (∀ (F : Type) (ctx : RouterCtx F) (db : List LocationRow)
       (req : NearestByCoordinatesRequest F),
       (req.limit < 1 ∨ 100 < req.limit) →
       find_nearest_users_by_coords ctx db req
         = .error ⟨400, "Limit must be between 1 and 100"⟩) ∧
    (∀ (F : Type) (ctx : RouterCtx F) (db : List LocationRow)
       (req : NearestByCoordinatesRequest F),
       ¬(req.limit < 1 ∨ 100 < req.limit) →
       ∃ resp rest, find_nearest_users_by_coords ctx db req = .ok resp ∧
         (resp.nearest_users ++ rest).Perm (coordsCandidates ctx db req) ∧
         resp.total_found = (coordsCandidates ctx db req).length ∧
         resp.nearest_users.length = min req.limit.toNat resp.total_found ∧
         List.Sorted entryLE resp.nearest_users ∧
         (∀ e ∈ resp.nearest_users, ∀ x ∈ rest, e.distance_km ≤ x.distance_km)) ∧
    (∀ (F : Type) (ctx : RouterCtx F) (db : List LocationRow) (req : NearestUsersRequest)
       (resp : NearbyData), find_nearest_users ctx db req = .ok resp →
       ∃ rest, List.Sorted entryLE (resp.nearest_users ++ rest) ∧
         resp.nearest_users.length = min req.limit.toNat resp.total_found ∧
         resp.total_found = resp.nearest_users.length + rest.length ∧
         (∀ e ∈ resp.nearest_users, ∀ x ∈ rest, e.distance_km ≤ x.distance_km)) := by
  refine ⟨?_, ?_, ?_, ?_⟩
  · intro F ctx db req h
    rw [find_nearest_users, if_pos h]
  · intro F ctx db req h
    rw [find_nearest_users_by_coords_eq, if_pos h]
  · intro F ctx db req hl
    rw [find_nearest_users_by_coords_eq, if_neg hl]
    refine ⟨_, (sortByDistance (coordsCandidates ctx db req)).drop req.limit.toNat, rfl,
      ?_, ?_, ?_, ?_, ?_⟩
    · show (List.take _ _ ++ List.drop _ _).Perm _
      rw [List.take_append_drop]
      exact sortByDistance_perm _
    · exact sortByDistance_length _
    · show (List.take _ _).length = min req.limit.toNat (sortByDistance _).length
      rw [List.length_take]
    · exact List.Pairwise.sublist (List.take_sublist _ _) (sortByDistance_sorted _)
    · have hp : (List.take req.limit.toNat (sortByDistance (coordsCandidates ctx db req)) ++
          List.drop req.limit.toNat (sortByDistance (coordsCandidates ctx db req))).Pairwise
          entryLE := by
        rw [List.take_append_drop]
        exact sortByDistance_sorted _
      exact (List.pairwise_append.mp hp).2.2
  · intro F ctx db req resp h
    obtain ⟨selfRow, window, pt, nearest, hw, hdec, hcoll, hresp, hl⟩ :=
      find_nearest_users_ok_shape ctx db req resp h
    subst hresp
    refine ⟨(sortByDistance nearest).drop req.limit.toNat, ?_, ?_, ?_, ?_⟩
    · show ((sortByDistance nearest).take req.limit.toNat ++
        (sortByDistance nearest).drop req.limit.toNat).Sorted entryLE
      rw [List.take_append_drop]
      exact sortByDistance_sorted _
    · show (List.take _ _).length = min req.limit.toNat (sortByDistance nearest).length
      rw [List.length_take]
    · show (sortByDistance nearest).length = (List.take _ _).length + (List.drop _ _).length
      have := congrArg List.length
        (List.take_append_drop req.limit.toNat (sortByDistance nearest))
      rw [List.length_append] at this
      exact this.symm
    · have hp : ((sortByDistance nearest).take req.limit.toNat ++
          (sortByDistance nearest).drop req.limit.toNat).Pairwise entryLE := by
        rw [List.take_append_drop]
        exact sortByDistance_sorted _
      exact (List.pairwise_append.mp hp).2.2

/-- Witness for C9: limit 0 and limit 101 are rejected; limit 10 succeeds
with the characterization. -/
theorem claim_C9_limit_witness :
    find_nearest_users ctxZ [rowSelf] ⟨"alice", 0, none⟩
      = .error ⟨400, "Limit must be between 1 and 100"⟩ ∧
    find_nearest_users_by_coords ctxZ [rowBob] ⟨0, 0, 101, none⟩
      = .error ⟨400, "Limit must be between 1 and 100"⟩ ∧
    (∃ resp rest, find_nearest_users_by_coords ctxZ [rowBob] ⟨0, 0, 10, none⟩ = .ok resp ∧
       (resp.nearest_users ++ rest).Perm (coordsCandidates ctxZ [rowBob] ⟨0, 0, 10, none⟩) ∧
       resp.total_found = (coordsCandidates ctxZ [rowBob] ⟨0, 0, 10, none⟩).length ∧
       resp.nearest_users.length = min (10 : Int).toNat resp.total_found ∧
       List.Sorted entryLE resp.nearest_users ∧
       (∀ e ∈ resp.nearest_users, ∀ x ∈ rest, e.distance_km ≤ x.distance_km)) ∧
    (∃ rest, List.Sorted entryLE
       (NearbyData.nearest_users ⟨"alice", [⟨"bob", 0, "public"⟩], 1, "48 hours"⟩ ++ rest) ∧
       (NearbyData.nearest_users ⟨"alice", [⟨"bob", 0, "public"⟩], 1, "48 hours"⟩).length
         = min (10 : Int).toNat
             (NearbyData.total_found ⟨"alice", [⟨"bob", 0, "public"⟩], 1, "48 hours"⟩) ∧
       NearbyData.total_found ⟨"alice", [⟨"bob", 0, "public"⟩], 1, "48 hours"⟩
         = (NearbyData.nearest_users ⟨"alice", [⟨"bob", 0, "public"⟩], 1, "48 hours"⟩).length
             + rest.length ∧
       (∀ e ∈ NearbyData.nearest_users ⟨"alice", [⟨"bob", 0, "public"⟩], 1, "48 hours"⟩,
          ∀ x ∈ rest, e.distance_km ≤ x.distance_km)) :=
  ⟨claim_C9_limit.1 Int ctxZ [rowSelf] ⟨"alice", 0, none⟩ (by norm_num),
   claim_C9_limit.2.1 Int ctxZ [rowBob] ⟨0, 0, 101, none⟩ (by norm_num),
   claim_C9_limit.2.2.1 Int ctxZ [rowBob] ⟨0, 0, 10, none⟩ (by norm_num),
   claim_C9_limit.2.2.2 Int ctxZ [rowSelf, rowBob] ⟨"alice", 10, none⟩
     ⟨"alice", [⟨"bob", 0, "public"⟩], 1, "48 hours"⟩ rfl⟩
